import Mathlib

/-!
Shallow embedding of `open_spiel/python/games/schafkopf.py` (the Schafkopf
trick-taking card game) together with proofs about its state machine:
dealing, suit-following legality, trick-winner resolution, scoring, and
terminal return computation, plus the observer construction.

Modelling conventions:
* Python ints are `Nat`/`Int`; Python lists are `List`.
* `self._points` is a Python float list that only ever holds integer values
  (it starts at `0.0` and is incremented by integer trick-point sums), so it
  is embedded as `List ℤ`; `self._returns` holds genuine fractions and is
  embedded as `List ℚ`.
* Python's `round(x, 3)` is embedded as `round3` below, a floor-based
  round-half-up to 3 decimal places over `ℚ`.  Python rounds the nearest
  float half-to-even; the two agree except at exact-half ties and within
  2⁻⁴⁰ of them, and no value `(points - 15) / 30` with integer `points`
  is a tie or anywhere near one (its distance to the nearest tie is at
  least `1/6000`), so the embedding is exact on every reachable input.
* `pyspiel.PlayerId.CHANCE = -1` and `pyspiel.PlayerId.TERMINAL = -4`.
* Python list comprehensions over `enumerate(...)` are embedded by the
  recursive index-tracking filter `filterIdx`.
-/

namespace Schafkopf

def _NUM_PLAYERS : Nat := 3

def _NUM_SUITS : Nat := 1

def _NUM_RANKS : Nat := 6

def _NUM_CARDS : Nat := _NUM_SUITS * _NUM_RANKS

/-- Cards are sorted first by rank and then by suit (`card // _NUM_RANKS`). -/
def CardSuit (card : Nat) : Nat := card / _NUM_RANKS

/-- Rank of a card (`card % _NUM_RANKS`). -/
def CardRank (card : Nat) : Nat := card % _NUM_RANKS

/-- The `RankToValue` table `{0: 0, 1: 4, 2: 10, 3: 11, 4: 2, 5: 3}`.
Ranks are always in `[0, 6)` (they arise as `card % 6`), so the catch-all
case of this total function is never exercised. -/
def RankToValue (r : Nat) : Nat :=
  match r with
  | 0 => 0
  | 1 => 4
  | 2 => 10
  | 3 => 11
  | 4 => 2
  | 5 => 3
  | _ => 0

def CardValue (card : Nat) : Nat := RankToValue (CardRank card)

/-- The `CardLocation` IntEnum: hands 0-3, the deck, and the trick pile. -/
inductive CardLocation
  | Hand0
  | Hand1
  | Hand2
  | Hand3
  | Deck
  | Trick
  deriving DecidableEq, Repr

/-- The integer value of a `CardLocation` (its IntEnum value); Python
compares locations with player indices by this value. -/
def CardLocation.val : CardLocation → Int
  | .Hand0 => 0
  | .Hand1 => 1
  | .Hand2 => 2
  | .Hand3 => 3
  | .Deck => 4
  | .Trick => 5

/-- `CardLocation(n)`: the enum member with value `n`.  Python raises for a
value outside `[0, 6)`; the code only ever constructs `CardLocation(k % 3)`,
so the catch-all case is never exercised. -/
def CardLocation.of_val (n : Nat) : CardLocation :=
  match n with
  | 0 => .Hand0
  | 1 => .Hand1
  | 2 => .Hand2
  | 3 => .Hand3
  | 4 => .Deck
  | _ => .Trick

inductive Phase
  | Deal
  | Play
  | GameOver
  deriving DecidableEq, Repr

/-- Embedding of the Python comprehension
`[c for c, x in enumerate(l) if p x]`, with `n` the index of the head. -/
def filterIdx (p : α → Bool) : List α → Nat → List Nat
  | [], _ => []
  | a :: l, n => if p a then n :: filterIdx p l (n + 1) else filterIdx p l (n + 1)

/-- The `SchafkopfTrick` record: its played cards in play order, the seat
that led it, and the led suit (None before any card is played). -/
structure SchafkopfTrick where
  _cards : List Nat
  _leader : Int
  _led_suit : Option Nat
  deriving Repr, DecidableEq

instance : Inhabited SchafkopfTrick := ⟨⟨[], 0, none⟩⟩

/-- `SchafkopfTrick.__init__(leader)`. -/
def SchafkopfTrick.init (leader : Int) : SchafkopfTrick :=
  { _cards := [], _leader := leader, _led_suit := none }

/-- `play_card`: record the led suit on the first card, then append. -/
def SchafkopfTrick.play_card (t : SchafkopfTrick) (card : Nat) : SchafkopfTrick :=
  if t._cards.length = 0 then
    { t with _led_suit := some (CardSuit card), _cards := t._cards ++ [card] }
  else
    { t with _cards := t._cards ++ [card] }

/-- `player_at_position(pos) = (leader + pos) % NUM_PLAYERS`. -/
def SchafkopfTrick.player_at_position (t : SchafkopfTrick) (pos : Int) : Int :=
  (t._leader + pos) % (_NUM_PLAYERS : Int)

/-- `points`: the sum of the card values in the trick. -/
def SchafkopfTrick.points (t : SchafkopfTrick) : Nat :=
  (t._cards.map CardValue).sum

/-- Python `tricks[-1].play_card(card)` mutates the final list element. -/
def modifyLast (f : α → α) : List α → List α
  | [] => []
  | [a] => [f a]
  | a :: b :: l => a :: modifyLast f (b :: l)

/-- The mutable `SchafkopfState` fields, exactly as set up in `__init__`. -/
structure SchafkopfState where
  _phase : Phase
  _card_locations : List CardLocation
  _num_cards_played : Nat
  _tricks : List SchafkopfTrick
  _returns : List ℚ
  _points : List ℤ
  _max_points : Nat
  _next_player : Int
  _game_over : Bool

/-- `SchafkopfState.__init__`: deal phase, all cards in the deck, zeroed
scores, `_max_points` accumulated over the whole deck, chance to act. -/
def initialState : SchafkopfState :=
  { _phase := Phase.Deal
    _card_locations := List.replicate _NUM_CARDS CardLocation.Deck
    _num_cards_played := 0
    _tricks := []
    _returns := List.replicate _NUM_PLAYERS (0 : ℚ)
    _points := List.replicate _NUM_PLAYERS (0 : ℤ)
    _max_points := (List.range _NUM_CARDS).foldl (fun acc c => acc + CardValue c) 0
    _next_player := -1
    _game_over := false }

/-- `current_player`: TERMINAL (-4) once over, CHANCE (-1) during Deal,
else the tracked next player. -/
def current_player (s : SchafkopfState) : Int :=
  if s._game_over then -4
  else if s._phase = Phase.Deal then -1
  else s._next_player

/-- `next_player() = (current_player() + 1) % NUM_PLAYERS`. -/
def next_player (s : SchafkopfState) : Int :=
  (current_player s + 1) % (_NUM_PLAYERS : Int)

/-- `player_cards(player)`: the cards whose location equals `player`
(IntEnum-to-int comparison). -/
def player_cards (s : SchafkopfState) (player : Int) : List Nat :=
  filterIdx (fun loc => loc.val == player) s._card_locations 0

/-- `_legal_deal_actions`: the cards whose location is the deck. -/
def _legal_deal_actions (s : SchafkopfState) : List Nat :=
  filterIdx (fun loc => loc == CardLocation.Deck) s._card_locations 0

/-- `_legal_actions(player)`: deal actions during Deal; during Play the
whole hand when leading a trick, else the led-suit subset of the hand if it
is non-empty and otherwise the whole hand.  Python reads
`self._tricks[-1]._led_suit`, which raises on an empty trick list; that is
unreachable (the branch needs `_num_cards_played % 3 ≠ 0`) and is embedded
with `getLastD`. -/
def _legal_actions (s : SchafkopfState) (player : Int) : List Nat :=
  if s._phase = Phase.Deal then
    _legal_deal_actions s
  else
    let pcards := player_cards s player
    if s._num_cards_played = 0 then
      pcards
    else if s._num_cards_played % _NUM_PLAYERS = 0 then
      pcards
    else
      let led_suit := (s._tricks.getLastD default)._led_suit
      let same_suit := pcards.filter (fun c => some (CardSuit c) == led_suit)
      if same_suit.length > 0 then same_suit else pcards

/-- `winner(trick)`: start from the trick's first card as provisional best
and scan in play order; a card becomes the new best only if it matches the
current best card's suit and strictly exceeds its rank.  Python asserts the
trick holds exactly `_NUM_PLAYERS` cards and indexes `trick._cards[0]`; the
empty-trick case is unreachable. -/
def winner (trick : SchafkopfTrick) : Int :=
  match trick._cards with
  | [] => trick.player_at_position 0
  | c0 :: _ =>
    (trick._cards.enum.foldl
      (fun acc ic =>
        if CardSuit ic.2 = CardSuit acc.2 ∧ CardRank ic.2 > CardRank acc.2 then
          (trick.player_at_position (ic.1 : Int), ic.2)
        else acc)
      (trick.player_at_position 0, c0)).1

/-- `chance_outcomes`: each undealt card paired with probability
`1 / len(cards_to_deal)`.  Python prints an error and exits the process
when the deck is empty; that case is unreachable during Deal and the `ℚ`
convention `1 / 0 = 0` is never exercised by any theorem below. -/
def chance_outcomes (s : SchafkopfState) : List (Nat × ℚ) :=
  let cards_to_deal := _legal_deal_actions s
  let p : ℚ := 1 / (cards_to_deal.length : ℚ)
  cards_to_deal.map (fun c => (c, p))

/-- `_apply_deal_action(card)`: the receiving hand is
`CardLocation(len(cards_left) % 3)`; dealing the last card starts Play with
player 0 to lead. -/
def _apply_deal_action (s : SchafkopfState) (card : Nat) : SchafkopfState :=
  let cards_left := _legal_deal_actions s
  let receiving_player := CardLocation.of_val (cards_left.length % _NUM_PLAYERS)
  let s1 := { s with _card_locations := s._card_locations.set card receiving_player }
  if cards_left.length = 1 then
    { s1 with _phase := Phase.Play, _next_player := 0 }
  else
    s1

/-- Python `round(x, 3)` over `ℚ`: round-half-up to 3 decimal places (see
the header note; no reachable argument is at or near a half tie, where this
and Python's float half-to-even rounding could differ). -/
def round3 (q : ℚ) : ℚ :=
  ((⌊1000 * q + 1 / 2⌋ : ℤ) : ℚ) / 1000

/-- The terminal loop
`self._returns[pi] = round((self._points[pi] - self._max_points // 2) / self._max_points, 3)`. -/
def returnsCalc (s : SchafkopfState) : List ℚ :=
  (List.range _NUM_PLAYERS).map (fun pi =>
    round3 (((s._points.getD pi 0 : ℚ) - ((s._max_points / 2 : ℕ) : ℚ)) / (s._max_points : ℚ)))

/-- `_apply_action(card)`: dispatch to dealing, trick creation, or playing
into the open trick, closing it (winner scoring, terminal returns, or
winner leads next) when it reaches three cards. -/
def _apply_action (s : SchafkopfState) (card : Nat) : SchafkopfState :=
  if s._phase = Phase.Deal then
    _apply_deal_action s card
  else if s._num_cards_played % _NUM_PLAYERS = 0 then
    let t := (SchafkopfTrick.init (current_player s)).play_card card
    let s1 := { s with
      _tricks := s._tricks ++ [t]
      _card_locations := s._card_locations.set card CardLocation.Trick
      _num_cards_played := s._num_cards_played + 1 }
    { s1 with _next_player := next_player s1 }
  else
    let s1 := { s with
      _tricks := modifyLast (fun t => t.play_card card) s._tricks
      _card_locations := s._card_locations.set card CardLocation.Trick
      _num_cards_played := s._num_cards_played + 1 }
    if s1._num_cards_played % _NUM_PLAYERS = 0 then
      let t := s1._tricks.getLastD default
      let w := winner t
      let s2 := { s1 with
        _points := s1._points.set w.toNat (s1._points.getD w.toNat 0 + (t.points : ℤ)) }
      if s2._num_cards_played = _NUM_CARDS then
        { s2 with _game_over := true, _returns := returnsCalc s2 }
      else
        { s2 with _next_player := w }
    else
      { s1 with _next_player := next_player s1 }

/-- `is_terminal()`. -/
def is_terminal (s : SchafkopfState) : Bool := s._game_over

/-- `returns()`. -/
def returns (s : SchafkopfState) : List ℚ := s._returns

/-- Folding `_apply_action` over an action sequence (the external driver's
replay loop). -/
def applyActions (s : SchafkopfState) (actions : List Nat) : SchafkopfState :=
  actions.foldl _apply_action s

/-- The states reachable from a fresh initial state by repeatedly applying
an action that is legal for the current actor of a non-terminal state. -/
inductive Reachable : SchafkopfState → Prop
  | init : Reachable initialState
  | step (s : SchafkopfState) (a : Nat) :
      Reachable s →
      s._game_over = false →
      a ∈ _legal_actions s (current_player s) →
      Reachable (_apply_action s a)

lemma getD_eq_getElem (l : List α) (d : α) {n : Nat} (h : n < l.length) :
    l.getD n d = l[n] := by
  simp [List.getD_eq_getElem?_getD, List.getElem?_eq_getElem h]

lemma getD_set_self (l : List α) {i : Nat} (v d : α) (h : i < l.length) :
    (l.set i v).getD i d = v := by
  simp [List.getD_eq_getElem?_getD, List.getElem?_set_self h]

lemma getD_set_ne (l : List α) {i c : Nat} (v d : α) (h : i ≠ c) :
    (l.set i v).getD c d = l.getD c d := by
  simp [List.getD_eq_getElem?_getD, List.getElem?_set_ne h]

lemma mem_filterIdx (d : α) (p : α → Bool) :
    ∀ (l : List α) (n c : Nat),
      c ∈ filterIdx p l n ↔ n ≤ c ∧ c - n < l.length ∧ p (l.getD (c - n) d) = true := by
  intro l
  induction l with
  | nil => simp [filterIdx]
  | cons x t ih =>
    intro n c
    rw [filterIdx]
    by_cases hx : p x = true
    · rw [if_pos hx, List.mem_cons, ih]
      constructor
      · rintro (rfl | ⟨h1, h2, h3⟩)
        · refine ⟨le_refl _, by simp, ?_⟩
          rw [Nat.sub_self, List.getD_cons_zero]
          exact hx
        · refine ⟨by omega, by simp only [List.length_cons]; omega, ?_⟩
          have hcn : c - n = (c - (n + 1)) + 1 := by omega
          rw [hcn, List.getD_cons_succ]
          exact h3
      · rintro ⟨h1, h2, h3⟩
        rcases Nat.eq_or_lt_of_le h1 with rfl | hlt
        · exact Or.inl rfl
        · right
          refine ⟨by omega, by simp only [List.length_cons] at h2; omega, ?_⟩
          have hcn : c - n = (c - (n + 1)) + 1 := by omega
          rw [hcn, List.getD_cons_succ] at h3
          exact h3
    · rw [if_neg hx, ih]
      constructor
      · rintro ⟨h1, h2, h3⟩
        refine ⟨by omega, by simp only [List.length_cons]; omega, ?_⟩
        have hcn : c - n = (c - (n + 1)) + 1 := by omega
        rw [hcn, List.getD_cons_succ]
        exact h3
      · rintro ⟨h1, h2, h3⟩
        rcases Nat.eq_or_lt_of_le h1 with rfl | hlt
        · rw [Nat.sub_self, List.getD_cons_zero] at h3
          exact absurd h3 hx
        · refine ⟨by omega, by simp only [List.length_cons] at h2; omega, ?_⟩
          have hcn : c - n = (c - (n + 1)) + 1 := by omega
          rw [hcn, List.getD_cons_succ] at h3
          exact h3

lemma mem_filterIdx_zero (d : α) (p : α → Bool) (l : List α) (c : Nat) :
    c ∈ filterIdx p l 0 ↔ c < l.length ∧ p (l.getD c d) = true := by
  rw [mem_filterIdx d p l 0 c]
  simp

lemma length_filterIdx (p : α → Bool) :
    ∀ (l : List α) (n : Nat), (filterIdx p l n).length = l.countP p := by
  intro l
  induction l with
  | nil => simp [filterIdx, List.countP_nil]
  | cons x t ih =>
    intro n
    rw [filterIdx, List.countP_cons]
    by_cases hx : p x = true
    · rw [if_pos hx, if_pos hx]
      simp [ih]
    · rw [if_neg hx, if_neg hx]
      simp [ih]

lemma le_of_mem_filterIdx (d : α) (p : α → Bool) (l : List α) (n c : Nat)
    (h : c ∈ filterIdx p l n) : n ≤ c :=
  ((mem_filterIdx d p l n c).1 h).1

lemma nodup_filterIdx (d : α) (p : α → Bool) :
    ∀ (l : List α) (n : Nat), (filterIdx p l n).Nodup := by
  intro l
  induction l with
  | nil => simp [filterIdx]
  | cons x t ih =>
    intro n
    rw [filterIdx]
    by_cases hx : p x = true
    · rw [if_pos hx]
      refine List.nodup_cons.2 ⟨fun hmem => ?_, ih (n + 1)⟩
      have := le_of_mem_filterIdx d p t (n + 1) n hmem
      omega
    · rw [if_neg hx]
      exact ih (n + 1)

lemma count_set_of_ne_ne [DecidableEq α] (l : List α) {i : Nat} {v b : α}
    (h : i < l.length) (h1 : l[i] ≠ b) (h2 : v ≠ b) :
    (l.set i v).count b = l.count b := by
  rw [List.count_set v b l i h]
  simp [h1, h2]

lemma count_set_of_eq_ne [DecidableEq α] (l : List α) {i : Nat} {v b : α}
    (h : i < l.length) (h1 : l[i] = b) (h2 : v ≠ b) :
    (l.set i v).count b + 1 = l.count b := by
  have hpos : 1 ≤ l.count b := List.one_le_count_iff.2 (h1 ▸ List.getElem_mem h)
  rw [List.count_set v b l i h]
  simp only [h1, h2, beq_self_eq_true, if_true, beq_iff_eq, if_false]
  omega

lemma count_set_of_ne_eq [DecidableEq α] (l : List α) {i : Nat} {v b : α}
    (h : i < l.length) (h1 : l[i] ≠ b) (h2 : v = b) :
    (l.set i v).count b = l.count b + 1 := by
  rw [List.count_set v b l i h]
  simp [h1, h2]

lemma sum_set_int : ∀ (l : List ℤ) (i : Nat) (v : ℤ), i < l.length →
    (l.set i v).sum = l.sum - l.getD i 0 + v := by
  intro l
  induction l with
  | nil =>
    intro i v h
    simp at h
  | cons x t ih =>
    intro i v h
    cases i with
    | zero =>
      simp only [List.set, List.sum_cons, List.getD_cons_zero]
      ring
    | succ j =>
      have hj : j < t.length := by simpa using h
      have hset : (x :: t).set (j + 1) v = x :: t.set j v := rfl
      rw [hset, List.sum_cons, List.sum_cons, List.getD_cons_succ, ih j v hj]
      ring

lemma foldl_preserve {P : β → Prop} (f : β → α → β)
    (hstep : ∀ b x, P b → P (f b x)) :
    ∀ (l : List α) (b : β), P b → P (l.foldl f b) := by
  intro l
  induction l with
  | nil =>
    intro b hb
    simpa using hb
  | cons x t ih =>
    intro b hb
    exact ih (f b x) (hstep b x hb)

lemma player_at_position_bounds (t : SchafkopfTrick) (pos : Int) :
    0 ≤ t.player_at_position pos ∧ t.player_at_position pos < 3 := by
  unfold SchafkopfTrick.player_at_position
  constructor
  · exact Int.emod_nonneg _ (by norm_num [_NUM_PLAYERS])
  · have h := Int.emod_lt_of_pos (t._leader + pos) (b := (_NUM_PLAYERS : Int)) (by norm_num [_NUM_PLAYERS])
    simpa [_NUM_PLAYERS] using h

lemma winner_bounds (t : SchafkopfTrick) : 0 ≤ winner t ∧ winner t < 3 := by
  cases hc : t._cards with
  | nil =>
    have hw : winner t = t.player_at_position 0 := by
      unfold winner
      simp only [hc]
    rw [hw]
    exact player_at_position_bounds t 0
  | cons c0 rest =>
    have hfold := foldl_preserve (P := fun (acc : Int × Nat) => 0 ≤ acc.1 ∧ acc.1 < 3)
      (fun acc ic =>
        if CardSuit ic.2 = CardSuit acc.2 ∧ CardRank ic.2 > CardRank acc.2 then
          (t.player_at_position (ic.1 : Int), ic.2)
        else acc)
      (fun b x hb => by
        by_cases hcond : CardSuit x.2 = CardSuit b.2 ∧ CardRank x.2 > CardRank b.2
        · simpa [hcond] using player_at_position_bounds t (x.1 : Int)
        · simpa [hcond] using hb)
      ((c0 :: rest).enum) (t.player_at_position 0, c0) (player_at_position_bounds t 0)
    have hw : winner t = ((c0 :: rest).enum.foldl
        (fun acc ic =>
          if CardSuit ic.2 = CardSuit acc.2 ∧ CardRank ic.2 > CardRank acc.2 then
            (t.player_at_position (ic.1 : Int), ic.2)
          else acc)
        (t.player_at_position 0, c0)).1 := by
      unfold winner
      simp only [hc]
    rw [hw]
    exact hfold

/-- The location of card `c` (`self._card_locations[c]`); the default is
irrelevant since every indexed access is in bounds. -/
def locAt (s : SchafkopfState) (c : Nat) : CardLocation :=
  s._card_locations.getD c CardLocation.Deck

/-- All cards played so far, in play order: the concatenation of the cards
of every trick. -/
def allPlayed (s : SchafkopfState) : List Nat :=
  (s._tricks.map SchafkopfTrick._cards).flatten

/-- Structural well-formedness of a trick appearing in a reachable state:
its leader is a seat, its cards are deck cards, and its led suit is the
suit of its first card (None while it is empty). -/
def trickOk (t : SchafkopfTrick) : Prop :=
  0 ≤ t._leader ∧ t._leader < 3 ∧ (∀ c ∈ t._cards, c < 6) ∧
    (match t._cards with
     | [] => t._led_suit = none
     | c :: _ => t._led_suit = some (CardSuit c))

/-- The sizes of the tricks of a state with `n` cards played (`n ≤ 6`):
closed tricks of three cards followed by the open remainder. -/
def shapeOf : Nat → List Nat
  | 0 => []
  | 1 => [1]
  | 2 => [2]
  | 3 => [3]
  | 4 => [3, 1]
  | 5 => [3, 2]
  | _ => [3, 3]

/-- The three hand sizes of a state. -/
def handCounts (s : SchafkopfState) : Nat × Nat × Nat :=
  (s._card_locations.count CardLocation.Hand0,
   s._card_locations.count CardLocation.Hand1,
   s._card_locations.count CardLocation.Hand2)

/-- The hand sizes determined by the number `u` of still-undealt cards:
cards are dealt to hand `(remaining deck size) % 3`, so the deal order of
hands is `0, 2, 1, 0, 2, 1`. -/
def dealtHands : Nat → Nat × Nat × Nat
  | 0 => (2, 2, 2)
  | 1 => (2, 1, 2)
  | 2 => (2, 1, 1)
  | 3 => (1, 1, 1)
  | 4 => (1, 0, 1)
  | 5 => (1, 0, 0)
  | _ => (0, 0, 0)

/-- The phase-specific part of the reachable-state invariant. -/
def phaseInv (s : SchafkopfState) : Prop :=
  match s._phase with
  | Phase.Deal =>
      s._num_cards_played = 0 ∧ s._tricks = [] ∧ s._next_player = -1 ∧
      s._game_over = false ∧ s._returns = List.replicate 3 (0 : ℚ) ∧
      s._points = List.replicate 3 (0 : ℤ) ∧
      1 ≤ s._card_locations.count CardLocation.Deck ∧
      handCounts s = dealtHands (s._card_locations.count CardLocation.Deck)
  | Phase.Play =>
      s._card_locations.count CardLocation.Deck = 0 ∧
      0 ≤ s._next_player ∧ s._next_player < 3 ∧
      (s._game_over = true ↔ s._num_cards_played = 6) ∧
      (s._game_over = false → s._returns = List.replicate 3 (0 : ℚ)) ∧
      (s._game_over = true → s._returns = returnsCalc s) ∧
      (s._num_cards_played = 0 → handCounts s = (2, 2, 2))
  | Phase.GameOver => False

/-- The reachable-state invariant. -/
def Inv (s : SchafkopfState) : Prop :=
  s._card_locations.length = 6 ∧
  s._points.length = 3 ∧
  s._returns.length = 3 ∧
  s._max_points = 30 ∧
  s._num_cards_played ≤ 6 ∧
  (∀ c, locAt s c ≠ CardLocation.Hand3) ∧
  (∀ t ∈ s._tricks, trickOk t) ∧
  s._tricks.map (fun t => t._cards.length) = shapeOf s._num_cards_played ∧
  (allPlayed s).Nodup ∧
  (∀ c, locAt s c = CardLocation.Trick ↔ c ∈ allPlayed s) ∧
  s._card_locations.count CardLocation.Trick = s._num_cards_played ∧
  ((s._tricks.filter (fun t => t._cards.length = 3)).map (fun t => (SchafkopfTrick.points t : ℤ))).sum
    = s._points.sum ∧
  phaseInv s

lemma inv_initial : Inv initialState := by
  refine ⟨by decide, by decide, by decide, by decide, by decide, ?_, ?_, by decide, ?_, ?_, by decide, by decide, ?_⟩
  · intro c
    unfold locAt initialState
    by_cases hc : c < 6
    · rw [getD_eq_getElem _ _ (by simpa [_NUM_CARDS, _NUM_SUITS, _NUM_RANKS] using hc)]
      simp [List.getElem_replicate]
    · rw [List.getD_eq_getElem?_getD, List.getElem?_replicate]
      rw [if_neg (by simpa [_NUM_CARDS, _NUM_SUITS, _NUM_RANKS] using hc)]
      simp
  · intro t ht
    simp [initialState] at ht
  · simp [allPlayed, initialState]
  · intro c
    constructor
    · intro h
      exfalso
      unfold locAt initialState at h
      by_cases hc : c < 6
      · rw [getD_eq_getElem _ _ (by simpa [_NUM_CARDS, _NUM_SUITS, _NUM_RANKS] using hc)] at h
        simp [List.getElem_replicate] at h
      · rw [List.getD_eq_getElem?_getD, List.getElem?_replicate] at h
        rw [if_neg (by simpa [_NUM_CARDS, _NUM_SUITS, _NUM_RANKS] using hc)] at h
        simp at h
    · intro h
      simp [allPlayed, initialState] at h
  · exact ⟨rfl, rfl, rfl, rfl, rfl, rfl, by decide, by decide⟩

lemma mem_legal_deal (s : SchafkopfState) (a : Nat) :
    a ∈ _legal_deal_actions s ↔ a < s._card_locations.length ∧ locAt s a = CardLocation.Deck := by
  unfold _legal_deal_actions locAt
  rw [mem_filterIdx_zero CardLocation.Deck]
  simp

lemma mem_player_cards (s : SchafkopfState) (p : Int) (c : Nat) :
    c ∈ player_cards s p ↔ c < s._card_locations.length ∧ (locAt s c).val = p := by
  unfold player_cards locAt
  rw [mem_filterIdx_zero CardLocation.Deck]
  simp

lemma length_legal_deal (s : SchafkopfState) :
    (_legal_deal_actions s).length = s._card_locations.count CardLocation.Deck := by
  unfold _legal_deal_actions
  rw [length_filterIdx]
  rw [List.count_eq_countP]

lemma legal_play_sub (s : SchafkopfState) (p : Int) (a : Nat)
    (hphase : ¬ s._phase = Phase.Deal) (ha : a ∈ _legal_actions s p) :
    a ∈ player_cards s p := by
  unfold _legal_actions at ha
  rw [if_neg hphase] at ha
  by_cases h0 : s._num_cards_played = 0
  · rwa [if_pos h0] at ha
  · rw [if_neg h0] at ha
    by_cases h3 : s._num_cards_played % _NUM_PLAYERS = 0
    · rwa [if_pos h3] at ha
    · rw [if_neg h3] at ha
      by_cases hs : ((player_cards s p).filter
          (fun c => some (CardSuit c) == (s._tricks.getLastD default)._led_suit)).length > 0
      · rw [if_pos hs] at ha
        exact (List.mem_filter.1 ha).1
      · rwa [if_neg hs] at ha

lemma hand_of_val_lt (l : CardLocation) (p : Int) (h : l.val = p) (h0 : 0 ≤ p) (h3 : p < 3) :
    l = CardLocation.Hand0 ∨ l = CardLocation.Hand1 ∨ l = CardLocation.Hand2 := by
  cases l <;> simp_all [CardLocation.val] <;> omega

lemma of_val_hand (n : Nat) (h : n < 3) :
    (CardLocation.of_val n = CardLocation.Hand0 ∨ CardLocation.of_val n = CardLocation.Hand1 ∨
      CardLocation.of_val n = CardLocation.Hand2) := by
  interval_cases n <;> simp [CardLocation.of_val]

lemma apply_deal_eq (s : SchafkopfState) (a : Nat) (hphase : s._phase = Phase.Deal) :
    _apply_action s a =
      if (_legal_deal_actions s).length = 1 then
        { s with
            _card_locations := s._card_locations.set a
              (CardLocation.of_val ((_legal_deal_actions s).length % _NUM_PLAYERS))
            _phase := Phase.Play
            _next_player := 0 }
      else
        { s with
            _card_locations := s._card_locations.set a
              (CardLocation.of_val ((_legal_deal_actions s).length % _NUM_PLAYERS)) } := by
  unfold _apply_action _apply_deal_action
  rw [if_pos hphase]

set_option maxHeartbeats 1600000 in
lemma inv_step_deal (s : SchafkopfState) (a : Nat) (hInv : Inv s)
    (hphase : s._phase = Phase.Deal)
    (ha : a ∈ _legal_actions s (current_player s)) : Inv (_apply_action s a) := by
  obtain ⟨hlen, hptslen, hretlen, hmax, hnum6, hHand3, htricksOk, hshape, hnodup,
    hTrickIff, hTrickCount, hPtsSum, hphaseInv⟩ := hInv
  simp only [phaseInv, hphase] at hphaseInv
  obtain ⟨hnum0, htricks, hnextp, hgo, hret, hpts, hdeck1, hhands⟩ := hphaseInv
  have ha' : a ∈ _legal_deal_actions s := by
    unfold _legal_actions at ha
    rwa [if_pos hphase] at ha
  rw [mem_legal_deal] at ha'
  obtain ⟨haLen, haDeck⟩ := ha'
  have haElem : s._card_locations[a] = CardLocation.Deck := by
    rw [← getD_eq_getElem s._card_locations CardLocation.Deck haLen]
    exact haDeck
  rw [apply_deal_eq s a hphase]
  set u := (_legal_deal_actions s).length with hu
  have hucount : u = s._card_locations.count CardLocation.Deck := length_legal_deal s
  rw [← hucount] at hhands
  have hu1 : 1 ≤ u := by
    rw [hucount]
    exact hdeck1
  have hu6 : u ≤ 6 := by
    rw [hucount]
    have := List.count_le_length CardLocation.Deck s._card_locations
    omega
  set r := CardLocation.of_val (u % _NUM_PLAYERS) with hr
  have hrhand : r = CardLocation.Hand0 ∨ r = CardLocation.Hand1 ∨ r = CardLocation.Hand2 := by
    rw [hr]
    exact of_val_hand _ (by simp [_NUM_PLAYERS]; omega)
  have hrTrick : r ≠ CardLocation.Trick := by
    rcases hrhand with h | h | h <;> rw [h] <;> decide
  have hrDeck : r ≠ CardLocation.Deck := by
    rcases hrhand with h | h | h <;> rw [h] <;> decide
  have hrHand3 : r ≠ CardLocation.Hand3 := by
    rcases hrhand with h | h | h <;> rw [h] <;> decide
  have hlen' : (s._card_locations.set a r).length = 6 := by
    simpa using hlen
  have hcount_ne : ∀ v : CardLocation, v ≠ CardLocation.Deck → r ≠ v →
      (s._card_locations.set a r).count v = s._card_locations.count v := by
    intro v hv hrv
    exact count_set_of_ne_ne s._card_locations haLen (by rw [haElem]; exact fun hcon => hv hcon.symm) hrv
  have hcount_r : (s._card_locations.set a r).count r = s._card_locations.count r + 1 :=
    count_set_of_ne_eq s._card_locations haLen (by rw [haElem]; exact fun hcon => hrDeck hcon.symm) rfl
  have hcount_deck : (s._card_locations.set a r).count CardLocation.Deck + 1
      = s._card_locations.count CardLocation.Deck :=
    count_set_of_eq_ne s._card_locations haLen haElem hrDeck
  have hcount_trick : (s._card_locations.set a r).count CardLocation.Trick
      = s._card_locations.count CardLocation.Trick :=
    hcount_ne CardLocation.Trick (by decide) hrTrick
  have hH3' : ∀ c, (s._card_locations.set a r).getD c CardLocation.Deck ≠ CardLocation.Hand3 := by
    intro c
    by_cases hc : c = a
    · subst hc
      rw [getD_set_self s._card_locations r CardLocation.Deck haLen]
      exact hrHand3
    · rw [getD_set_ne s._card_locations r CardLocation.Deck (fun hcon => hc hcon.symm)]
      exact hHand3 c
  have hTrick' : ∀ c, (s._card_locations.set a r).getD c CardLocation.Deck ≠ CardLocation.Trick := by
    intro c
    by_cases hc : c = a
    · subst hc
      rw [getD_set_self s._card_locations r CardLocation.Deck haLen]
      exact hrTrick
    · rw [getD_set_ne s._card_locations r CardLocation.Deck (fun hcon => hc hcon.symm)]
      intro hcon
      have hmem := (hTrickIff c).1 hcon
      simp [allPlayed, htricks] at hmem
  have hhandcount : ∀ hh : CardLocation, hh = CardLocation.Hand0 ∨ hh = CardLocation.Hand1 ∨ hh = CardLocation.Hand2 →
      (s._card_locations.set a r).count hh
        = s._card_locations.count hh + (if r = hh then 1 else 0) := by
    intro hh hcases
    by_cases hrh : r = hh
    · rw [if_pos hrh, ← hrh]
      exact hcount_r
    · have hne : hh ≠ CardLocation.Deck := by
        rcases hcases with h | h | h <;> rw [h] <;> decide
      rw [if_neg hrh, hcount_ne hh hne hrh]
      omega
  by_cases huq : u = 1
  · rw [if_pos huq]
    unfold Inv
    dsimp only
    refine ⟨hlen', hptslen, hretlen, hmax, hnum6, ?_, ?_, ?_, ?_, ?_, ?_, ?_, ?_⟩
    · intro c
      unfold locAt
      dsimp only
      exact hH3' c
    · intro t ht
      rw [htricks] at ht
      simp at ht
    · rw [htricks, hnum0]
      rfl
    · simp [allPlayed, htricks]
    · intro c
      simp only [locAt, allPlayed, htricks, List.map_nil, List.flatten_nil,
        List.not_mem_nil, iff_false]
      exact hTrick' c
    · rw [hcount_trick, hTrickCount]
    · exact hPtsSum
    · unfold phaseInv
      dsimp only
      refine ⟨by omega, by decide, by decide, ?_, fun _ => hret, ?_, ?_⟩
      · rw [hgo, hnum0]
        simp
      · intro hcon
        rw [hgo] at hcon
        simp at hcon
      · intro _
        have hdh : dealtHands u = (2, 1, 2) := by rw [huq]; decide
        rw [hdh] at hhands
        have hr1 : r = CardLocation.Hand1 := by rw [hr, huq]; decide
        unfold handCounts at hhands ⊢
        dsimp only
        simp only [Prod.mk.injEq] at hhands ⊢
        obtain ⟨h0, h1, h2⟩ := hhands
        refine ⟨?_, ?_, ?_⟩
        · rw [hhandcount CardLocation.Hand0 (Or.inl rfl), if_neg (by rw [hr1]; decide), h0]
        · rw [hhandcount CardLocation.Hand1 (Or.inr (Or.inl rfl)), if_pos hr1, h1]
        · rw [hhandcount CardLocation.Hand2 (Or.inr (Or.inr rfl)), if_neg (by rw [hr1]; decide), h2]
  · rw [if_neg huq]
    unfold Inv
    dsimp only
    refine ⟨hlen', hptslen, hretlen, hmax, hnum6, ?_, ?_, ?_, ?_, ?_, ?_, ?_, ?_⟩
    · intro c
      unfold locAt
      dsimp only
      exact hH3' c
    · intro t ht
      rw [htricks] at ht
      simp at ht
    · rw [htricks, hnum0]
      rfl
    · simp [allPlayed, htricks]
    · intro c
      simp only [locAt, allPlayed, htricks, List.map_nil, List.flatten_nil,
        List.not_mem_nil, iff_false]
      exact hTrick' c
    · rw [hcount_trick, hTrickCount]
    · exact hPtsSum
    · unfold phaseInv
      dsimp only
      rw [hphase]
      refine ⟨hnum0, htricks, hnextp, hgo, hret, hpts, by omega, ?_⟩
      have hucount' : (s._card_locations.set a r).count CardLocation.Deck = u - 1 := by omega
      rw [hucount']
      unfold handCounts at hhands ⊢
      dsimp only
      interval_cases u
      · exact absurd rfl huq
      · rw [(by decide : dealtHands 2 = ((2:ℕ), 1, 1))] at hhands
        simp only [Prod.mk.injEq] at hhands
        obtain ⟨h0, h1, h2⟩ := hhands
        have hrc : r = CardLocation.Hand2 := by rw [hr]; decide
        rw [(by decide : dealtHands (2 - 1) = ((2:ℕ), 1, 2))]
        simp only [Prod.mk.injEq]
        refine ⟨?_, ?_, ?_⟩
        · rw [hhandcount CardLocation.Hand0 (Or.inl rfl), if_neg (by rw [hrc]; decide), h0]
        · rw [hhandcount CardLocation.Hand1 (Or.inr (Or.inl rfl)), if_neg (by rw [hrc]; decide), h1]
        · rw [hhandcount CardLocation.Hand2 (Or.inr (Or.inr rfl)), if_pos hrc, h2]
      · rw [(by decide : dealtHands 3 = ((1:ℕ), 1, 1))] at hhands
        simp only [Prod.mk.injEq] at hhands
        obtain ⟨h0, h1, h2⟩ := hhands
        have hrc : r = CardLocation.Hand0 := by rw [hr]; decide
        rw [(by decide : dealtHands (3 - 1) = ((2:ℕ), 1, 1))]
        simp only [Prod.mk.injEq]
        refine ⟨?_, ?_, ?_⟩
        · rw [hhandcount CardLocation.Hand0 (Or.inl rfl), if_pos hrc, h0]
        · rw [hhandcount CardLocation.Hand1 (Or.inr (Or.inl rfl)), if_neg (by rw [hrc]; decide), h1]
        · rw [hhandcount CardLocation.Hand2 (Or.inr (Or.inr rfl)), if_neg (by rw [hrc]; decide), h2]
      · rw [(by decide : dealtHands 4 = ((1:ℕ), 0, 1))] at hhands
        simp only [Prod.mk.injEq] at hhands
        obtain ⟨h0, h1, h2⟩ := hhands
        have hrc : r = CardLocation.Hand1 := by rw [hr]; decide
        rw [(by decide : dealtHands (4 - 1) = ((1:ℕ), 1, 1))]
        simp only [Prod.mk.injEq]
        refine ⟨?_, ?_, ?_⟩
        · rw [hhandcount CardLocation.Hand0 (Or.inl rfl), if_neg (by rw [hrc]; decide), h0]
        · rw [hhandcount CardLocation.Hand1 (Or.inr (Or.inl rfl)), if_pos hrc, h1]
        · rw [hhandcount CardLocation.Hand2 (Or.inr (Or.inr rfl)), if_neg (by rw [hrc]; decide), h2]
      · rw [(by decide : dealtHands 5 = ((1:ℕ), 0, 0))] at hhands
        simp only [Prod.mk.injEq] at hhands
        obtain ⟨h0, h1, h2⟩ := hhands
        have hrc : r = CardLocation.Hand2 := by rw [hr]; decide
        rw [(by decide : dealtHands (5 - 1) = ((1:ℕ), 0, 1))]
        simp only [Prod.mk.injEq]
        refine ⟨?_, ?_, ?_⟩
        · rw [hhandcount CardLocation.Hand0 (Or.inl rfl), if_neg (by rw [hrc]; decide), h0]
        · rw [hhandcount CardLocation.Hand1 (Or.inr (Or.inl rfl)), if_neg (by rw [hrc]; decide), h1]
        · rw [hhandcount CardLocation.Hand2 (Or.inr (Or.inr rfl)), if_pos hrc, h2]
      · rw [(by decide : dealtHands 6 = ((0:ℕ), 0, 0))] at hhands
        simp only [Prod.mk.injEq] at hhands
        obtain ⟨h0, h1, h2⟩ := hhands
        have hrc : r = CardLocation.Hand0 := by rw [hr]; decide
        rw [(by decide : dealtHands (6 - 1) = ((1:ℕ), 0, 0))]
        simp only [Prod.mk.injEq]
        refine ⟨?_, ?_, ?_⟩
        · rw [hhandcount CardLocation.Hand0 (Or.inl rfl), if_pos hrc, h0]
        · rw [hhandcount CardLocation.Hand1 (Or.inr (Or.inl rfl)), if_neg (by rw [hrc]; decide), h1]
        · rw [hhandcount CardLocation.Hand2 (Or.inr (Or.inr rfl)), if_neg (by rw [hrc]; decide), h2]

lemma map_len_one {ts : List SchafkopfTrick} {k : Nat}
    (h : ts.map (fun t => t._cards.length) = [k]) :
    ∃ t, ts = [t] ∧ t._cards.length = k := by
  cases ts with
  | nil => simp at h
  | cons t ts' =>
    cases ts' with
    | nil =>
      simp at h
      exact ⟨t, rfl, h⟩
    | cons t2 ts'' => simp at h

lemma map_len_two {ts : List SchafkopfTrick} {k1 k2 : Nat}
    (h : ts.map (fun t => t._cards.length) = [k1, k2]) :
    ∃ t1 t2, ts = [t1, t2] ∧ t1._cards.length = k1 ∧ t2._cards.length = k2 := by
  cases ts with
  | nil => simp at h
  | cons t ts' =>
    cases ts' with
    | nil => simp at h
    | cons t2 ts'' =>
      cases ts'' with
      | nil =>
        simp at h
        exact ⟨t, t2, rfl, h.1, h.2⟩
      | cons t3 ts''' => simp at h

lemma list_len1 {l : List Nat} (h : l.length = 1) : ∃ x, l = [x] := by
  cases l with
  | nil => simp at h
  | cons x l' =>
    cases l' with
    | nil => exact ⟨x, rfl⟩
    | cons y l'' => simp at h

lemma list_len2 {l : List Nat} (h : l.length = 2) : ∃ x y, l = [x, y] := by
  cases l with
  | nil => simp at h
  | cons x l' =>
    cases l' with
    | nil => simp at h
    | cons y l'' =>
      cases l'' with
      | nil => exact ⟨x, y, rfl⟩
      | cons z l''' => simp at h

lemma next_player_bounds (s : SchafkopfState) :
    0 ≤ next_player s ∧ next_player s < 3 := by
  unfold next_player
  constructor
  · exact Int.emod_nonneg _ (by norm_num [_NUM_PLAYERS])
  · have h := Int.emod_lt_of_pos (current_player s + 1) (b := (_NUM_PLAYERS : Int)) (by norm_num [_NUM_PLAYERS])
    simpa [_NUM_PLAYERS] using h


lemma play_card_nonempty (t : SchafkopfTrick) (a : Nat) (h : t._cards.length ≠ 0) :
    t.play_card a = { t with _cards := t._cards ++ [a] } := by
  unfold SchafkopfTrick.play_card
  rw [if_neg h]


lemma getLastD_singleton (x d : α) : ([x] : List α).getLastD d = x := rfl

lemma getLastD_pair (x y d : α) : ([x, y] : List α).getLastD d = y := rfl

set_option maxHeartbeats 3200000 in
lemma inv_step_play (s : SchafkopfState) (a : Nat) (hInv : Inv s)
    (hphase : s._phase = Phase.Play) (hgo : s._game_over = false)
    (ha : a ∈ _legal_actions s (current_player s)) : Inv (_apply_action s a) := by
  obtain ⟨hlen, hptslen, hretlen, hmax, hnum6, hHand3, htricksOk, hshape, hnodup,
    hTrickIff, hTrickCount, hPtsSum, hphaseInv⟩ := hInv
  simp only [phaseInv, hphase] at hphaseInv
  obtain ⟨hdeck0, hnp0, hnp3, hgoiff, hretF, hretT, hhands0⟩ := hphaseInv
  have hcur : current_player s = s._next_player := by
    unfold current_player
    rw [hgo]
    simp [hphase]
  have hnum_ne6 : s._num_cards_played ≠ 6 := by
    intro h
    have hcon := hgoiff.2 h
    rw [hgo] at hcon
    exact absurd hcon (by decide)
  have ha' := legal_play_sub s (current_player s) a (by simp [hphase]) ha
  rw [hcur, mem_player_cards] at ha'
  obtain ⟨haLen, haVal⟩ := ha'
  have ha6 : a < 6 := by
    rw [hlen] at haLen
    exact haLen
  have haHand := hand_of_val_lt _ _ haVal hnp0 hnp3
  have haNotTrick : locAt s a ≠ CardLocation.Trick := by
    rcases haHand with h | h | h <;> rw [h] <;> decide
  have haNotDeck : locAt s a ≠ CardLocation.Deck := by
    rcases haHand with h | h | h <;> rw [h] <;> decide
  have haNotPlayed : a ∉ allPlayed s := fun hmem => haNotTrick ((hTrickIff a).2 hmem)
  have haGet : s._card_locations[a] = locAt s a :=
    (getD_eq_getElem s._card_locations CardLocation.Deck haLen).symm
  have hcountT' : (s._card_locations.set a CardLocation.Trick).count CardLocation.Trick
      = s._card_locations.count CardLocation.Trick + 1 :=
    count_set_of_ne_eq s._card_locations haLen (by rw [haGet]; exact fun hcon => haNotTrick hcon) rfl
  have hcountD' : (s._card_locations.set a CardLocation.Trick).count CardLocation.Deck
      = s._card_locations.count CardLocation.Deck :=
    count_set_of_ne_ne s._card_locations haLen (by rw [haGet]; exact fun hcon => haNotDeck hcon) (by decide)
  have hlen' : (s._card_locations.set a CardLocation.Trick).length = 6 := by
    simpa using hlen
  have hH3' : ∀ c, (s._card_locations.set a CardLocation.Trick).getD c CardLocation.Deck
      ≠ CardLocation.Hand3 := by
    intro c
    by_cases hc : c = a
    · subst hc
      rw [getD_set_self s._card_locations CardLocation.Trick CardLocation.Deck haLen]
      decide
    · rw [getD_set_ne s._card_locations CardLocation.Trick CardLocation.Deck
        (fun hcon => hc hcon.symm)]
      exact hHand3 c
  have hloc'a : (s._card_locations.set a CardLocation.Trick).getD a CardLocation.Deck
      = CardLocation.Trick :=
    getD_set_self s._card_locations CardLocation.Trick CardLocation.Deck haLen
  have hloc'ne : ∀ c, c ≠ a → (s._card_locations.set a CardLocation.Trick).getD c CardLocation.Deck
      = s._card_locations.getD c CardLocation.Deck := fun c hc =>
    getD_set_ne s._card_locations CardLocation.Trick CardLocation.Deck (fun hcon => hc hcon.symm)
  have hnumcase : s._num_cards_played = 0 ∨ s._num_cards_played = 1 ∨ s._num_cards_played = 2 ∨
      s._num_cards_played = 3 ∨ s._num_cards_played = 4 ∨ s._num_cards_played = 5 := by omega
  have hnext1 : 0 ≤ (s._next_player + 1) % (_NUM_PLAYERS : Int) ∧
      (s._next_player + 1) % (_NUM_PLAYERS : Int) < 3 := by
    constructor
    · exact Int.emod_nonneg _ (by norm_num [_NUM_PLAYERS])
    · have h := Int.emod_lt_of_pos (s._next_player + 1) (b := (_NUM_PLAYERS : Int))
        (by norm_num [_NUM_PLAYERS])
      simpa [_NUM_PLAYERS] using h
  rcases hnumcase with hn | hn | hn | hn | hn | hn
  · -- num = 0: lead a fresh trick
    have htricks : s._tricks = [] := by
      rw [hn] at hshape
      simpa using List.map_eq_nil_iff.1 hshape
    have happ : _apply_action s a = { s with
        _tricks := s._tricks ++ [(SchafkopfTrick.init (current_player s)).play_card a]
        _card_locations := s._card_locations.set a CardLocation.Trick
        _num_cards_played := s._num_cards_played + 1
        _next_player := (s._next_player + 1) % (_NUM_PLAYERS : Int) } := by
      unfold _apply_action
      rw [if_neg (by simp [hphase]), if_pos (by rw [hn]; decide)]
      unfold next_player current_player
      rw [hgo]
      simp [hphase]
    rw [happ]
    unfold Inv
    dsimp only
    rw [htricks, hcur, hn]
    simp only [List.nil_append]
    refine ⟨hlen', hptslen, hretlen, hmax, by omega, ?_, ?_, ?_, ?_, ?_, ?_, ?_, ?_⟩
    · intro c
      unfold locAt
      dsimp only
      exact hH3' c
    · intro t ht
      simp only [List.mem_singleton] at ht
      subst ht
      unfold SchafkopfTrick.init SchafkopfTrick.play_card trickOk
      simp only [List.length_nil, if_pos rfl]
      exact ⟨hnp0, hnp3, by simp [ha6], by simp⟩
    · unfold SchafkopfTrick.init SchafkopfTrick.play_card
      simp [shapeOf]
    · unfold allPlayed SchafkopfTrick.init SchafkopfTrick.play_card
      simp
    · intro c
      unfold locAt allPlayed
      dsimp only
      have hcards : ((SchafkopfTrick.init s._next_player).play_card a)._cards = [a] := rfl
      simp only [List.map_cons, List.map_nil, hcards, List.flatten_cons, List.flatten_nil,
        List.append_nil]
      by_cases hc : c = a
      · subst hc
        rw [hloc'a]
        simp
      · rw [hloc'ne c hc]
        have hiff := hTrickIff c
        unfold locAt allPlayed at hiff
        rw [htricks] at hiff
        simp only [List.map_nil, List.flatten_nil, List.not_mem_nil, iff_false] at hiff
        simp only [List.mem_singleton]
        exact iff_of_false hiff hc
    · dsimp only
      rw [hcountT', hTrickCount, hn]
    · have hfil : ([((SchafkopfTrick.init s._next_player).play_card a)].filter
          (fun t => t._cards.length = 3)) = [] := rfl
      rw [hfil]
      rw [htricks] at hPtsSum
      simp only [List.filter_nil, List.map_nil, List.sum_nil] at hPtsSum ⊢
      omega
    · unfold phaseInv
      dsimp only
      rw [hphase]
      refine ⟨hcountD' ▸ hdeck0, hnext1.1, hnext1.2, ?_, fun _ => hretF hgo, ?_, ?_⟩
      · rw [hgo]
        simp
      · intro hcon
        rw [hgo] at hcon
        exact absurd hcon (by decide)
      · intro hcon
        omega
  · -- num = 1: follow into the open first trick (still open afterwards)
    have hshape1 : s._tricks.map (fun t => t._cards.length) = [1] := by
      rw [hn] at hshape
      exact hshape
    obtain ⟨t1, htricks, ht1len⟩ := map_len_one hshape1
    have hplay : t1.play_card a = { t1 with _cards := t1._cards ++ [a] } :=
      play_card_nonempty t1 a (by omega)
    have hAP : allPlayed s = t1._cards := by
      unfold allPlayed
      rw [htricks]
      simp
    have happ : _apply_action s a = { s with
        _tricks := [{ t1 with _cards := t1._cards ++ [a] }]
        _card_locations := s._card_locations.set a CardLocation.Trick
        _num_cards_played := s._num_cards_played + 1
        _next_player := (s._next_player + 1) % (_NUM_PLAYERS : Int) } := by
      unfold _apply_action
      rw [if_neg (by simp [hphase]), if_neg (by rw [hn]; decide)]
      dsimp only
      rw [htricks]
      simp only [modifyLast, hplay]
      rw [hn]
      rw [if_neg (by decide)]
      unfold next_player current_player
      rw [hgo]
      simp [hphase, hn]
    rw [happ]
    unfold Inv
    dsimp only
    rw [hn]
    refine ⟨hlen', hptslen, hretlen, hmax, by omega, ?_, ?_, ?_, ?_, ?_, ?_, ?_, ?_⟩
    · intro c
      unfold locAt
      dsimp only
      exact hH3' c
    · intro t ht
      simp only [List.mem_singleton] at ht
      subst ht
      obtain ⟨hL0, hL3, hcards6, hled⟩ := htricksOk t1 (by rw [htricks]; simp)
      refine ⟨hL0, hL3, ?_, ?_⟩
      · intro c hc
        simp only [List.mem_append, List.mem_singleton] at hc
        rcases hc with hc | hc
        · exact hcards6 c hc
        · subst hc
          exact ha6
      · cases hc0 : t1._cards with
        | nil =>
          rw [hc0] at ht1len
          simp at ht1len
        | cons c0 rest =>
          simp only [hc0] at hled
          simp only [hc0, List.cons_append]
          exact hled
    · simp [shapeOf, ht1len]
    · unfold allPlayed
      dsimp only
      simp only [List.map_cons, List.map_nil, List.flatten_cons, List.flatten_nil,
        List.append_nil]
      have hnodup' : t1._cards.Nodup := by
        rw [hAP] at hnodup
        exact hnodup
      have hnp : a ∉ t1._cards := by
        rw [hAP] at haNotPlayed
        exact haNotPlayed
      simp [List.nodup_append, hnodup', hnp]
    · intro c
      unfold locAt allPlayed
      dsimp only
      simp only [List.map_cons, List.map_nil, List.flatten_cons, List.flatten_nil,
        List.append_nil]
      by_cases hc : c = a
      · subst hc
        rw [hloc'a]
        simp
      · rw [hloc'ne c hc]
        have hiff := hTrickIff c
        rw [hAP] at hiff
        unfold locAt at hiff
        simp only [List.mem_append, List.mem_singleton, hc, or_false]
        exact hiff
    · dsimp only
      rw [hcountT', hTrickCount, hn]
    · have hfil : ([{ t1 with _cards := t1._cards ++ [a] }].filter
          (fun t => t._cards.length = 3)) = [] := by
        simp [List.filter_cons, List.length_append, ht1len]
      rw [hfil]
      rw [htricks] at hPtsSum
      have hfil0 : (([t1]).filter (fun t => t._cards.length = 3)) = [] := by
        simp [List.filter_cons, ht1len]
      rw [hfil0] at hPtsSum
      simp only [List.map_nil, List.sum_nil] at hPtsSum ⊢
      omega
    · unfold phaseInv
      dsimp only
      rw [hphase]
      refine ⟨hcountD' ▸ hdeck0, hnext1.1, hnext1.2, ?_, fun _ => hretF hgo, ?_, ?_⟩
      · rw [hgo]
        simp
      · intro hcon
        rw [hgo] at hcon
        exact absurd hcon (by decide)
      · intro hcon
        omega
  · -- num = 2: close the first trick
    have hshape2 : s._tricks.map (fun t => t._cards.length) = [2] := by
      rw [hn] at hshape
      exact hshape
    obtain ⟨t1, htricks, ht1len⟩ := map_len_one hshape2
    have hplay : t1.play_card a = { t1 with _cards := t1._cards ++ [a] } :=
      play_card_nonempty t1 a (by omega)
    have hAP : allPlayed s = t1._cards := by
      unfold allPlayed
      rw [htricks]
      simp
    have hw := winner_bounds { t1 with _cards := t1._cards ++ [a] }
    have happ : _apply_action s a = { s with
        _tricks := [{ t1 with _cards := t1._cards ++ [a] }]
        _card_locations := s._card_locations.set a CardLocation.Trick
        _num_cards_played := s._num_cards_played + 1
        _points := s._points.set (winner { t1 with _cards := t1._cards ++ [a] }).toNat
          (s._points.getD (winner { t1 with _cards := t1._cards ++ [a] }).toNat 0
            + (SchafkopfTrick.points { t1 with _cards := t1._cards ++ [a] } : ℤ))
        _next_player := winner { t1 with _cards := t1._cards ++ [a] } } := by
      unfold _apply_action
      rw [if_neg (by simp [hphase]), if_neg (by rw [hn]; decide)]
      dsimp only
      rw [htricks]
      simp only [modifyLast, hplay]
      rw [hn]
      rw [if_pos (by decide)]
      simp only [getLastD_singleton]
      rw [if_neg (by decide)]
    rw [happ]
    unfold Inv
    dsimp only
    rw [hn]
    refine ⟨hlen', by simp [hptslen], hretlen, hmax, by omega, ?_, ?_, ?_, ?_, ?_, ?_, ?_, ?_⟩
    · intro c
      unfold locAt
      dsimp only
      exact hH3' c
    · intro t ht
      simp only [List.mem_singleton] at ht
      rw [ht]
      obtain ⟨hL0, hL3, hcards6, hled⟩ := htricksOk t1 (by rw [htricks]; simp)
      refine ⟨hL0, hL3, ?_, ?_⟩
      · intro c hc
        simp only [List.mem_append, List.mem_singleton] at hc
        rcases hc with hc | hc
        · exact hcards6 c hc
        · subst hc
          exact ha6
      · cases hc0 : t1._cards with
        | nil =>
          rw [hc0] at ht1len
          simp at ht1len
        | cons c0 rest =>
          simp only [hc0] at hled
          simp only [hc0, List.cons_append]
          exact hled
    · simp [shapeOf, ht1len]
    · unfold allPlayed
      dsimp only
      simp only [List.map_cons, List.map_nil, List.flatten_cons, List.flatten_nil,
        List.append_nil]
      have hnodup' : t1._cards.Nodup := by
        rw [hAP] at hnodup
        exact hnodup
      have hnp : a ∉ t1._cards := by
        rw [hAP] at haNotPlayed
        exact haNotPlayed
      simp [List.nodup_append, hnodup', hnp]
    · intro c
      unfold locAt allPlayed
      dsimp only
      simp only [List.map_cons, List.map_nil, List.flatten_cons, List.flatten_nil,
        List.append_nil]
      by_cases hc : c = a
      · subst hc
        rw [hloc'a]
        simp
      · rw [hloc'ne c hc]
        have hiff := hTrickIff c
        rw [hAP] at hiff
        unfold locAt at hiff
        simp only [List.mem_append, List.mem_singleton, hc, or_false]
        exact hiff
    · dsimp only
      rw [hcountT', hTrickCount, hn]
    · have hfil : ([{ t1 with _cards := t1._cards ++ [a] }].filter
          (fun t => t._cards.length = 3)) = [{ t1 with _cards := t1._cards ++ [a] }] := by
        simp [List.filter_cons, List.length_append, ht1len]
      rw [hfil]
      rw [sum_set_int s._points _ _ (by rw [hptslen]; omega)]
      rw [htricks] at hPtsSum
      have hfil0 : (([t1]).filter (fun t => t._cards.length = 3)) = [] := by
        simp [List.filter_cons, ht1len]
      rw [hfil0] at hPtsSum
      simp only [List.map_nil, List.sum_nil] at hPtsSum
      simp only [List.map_cons, List.map_nil, List.sum_cons, List.sum_nil]
      omega
    · unfold phaseInv
      dsimp only
      rw [hphase]
      refine ⟨hcountD' ▸ hdeck0, hw.1, hw.2, ?_, fun _ => hretF hgo, ?_, ?_⟩
      · rw [hgo]
        simp
      · intro hcon
        rw [hgo] at hcon
        exact absurd hcon (by decide)
      · intro hcon
        omega
  · -- num = 3: lead the second trick
    have hshape3 : s._tricks.map (fun t => t._cards.length) = [3] := by
      rw [hn] at hshape
      exact hshape
    obtain ⟨t1, htricks, ht1len⟩ := map_len_one hshape3
    have hAP : allPlayed s = t1._cards := by
      unfold allPlayed
      rw [htricks]
      simp
    have hc1 : ((SchafkopfTrick.init s._next_player).play_card a)._cards = [a] := rfl
    have happ : _apply_action s a = { s with
        _tricks := s._tricks ++ [(SchafkopfTrick.init (current_player s)).play_card a]
        _card_locations := s._card_locations.set a CardLocation.Trick
        _num_cards_played := s._num_cards_played + 1
        _next_player := (s._next_player + 1) % (_NUM_PLAYERS : Int) } := by
      unfold _apply_action
      rw [if_neg (by simp [hphase]), if_pos (by rw [hn]; decide)]
      unfold next_player current_player
      rw [hgo]
      simp [hphase]
    rw [happ]
    unfold Inv
    dsimp only
    rw [htricks, hcur, hn]
    refine ⟨hlen', hptslen, hretlen, hmax, by omega, ?_, ?_, ?_, ?_, ?_, ?_, ?_, ?_⟩
    · intro c
      unfold locAt
      dsimp only
      exact hH3' c
    · intro t ht
      simp only [List.mem_append, List.mem_singleton] at ht
      rcases ht with ht | ht
      · exact htricksOk t (by rw [htricks]; simp [ht])
      · subst ht
        unfold SchafkopfTrick.init SchafkopfTrick.play_card trickOk
        simp only [List.length_nil, if_pos rfl]
        exact ⟨hnp0, hnp3, by simp [ha6], by simp⟩
    · simp [shapeOf, ht1len, hc1]
    · unfold allPlayed
      dsimp only
      simp only [List.map_append, List.map_cons, List.map_nil, hc1, List.flatten_append,
        List.flatten_cons, List.flatten_nil, List.append_nil]
      have hnodup' : t1._cards.Nodup := by
        rw [hAP] at hnodup
        exact hnodup
      have hnp : a ∉ t1._cards := by
        rw [hAP] at haNotPlayed
        exact haNotPlayed
      simp [List.nodup_append, hnodup', hnp]
    · intro c
      unfold locAt allPlayed
      dsimp only
      simp only [List.map_append, List.map_cons, List.map_nil, hc1, List.flatten_append,
        List.flatten_cons, List.flatten_nil, List.append_nil]
      by_cases hc : c = a
      · subst hc
        rw [hloc'a]
        simp
      · rw [hloc'ne c hc]
        have hiff := hTrickIff c
        rw [hAP] at hiff
        unfold locAt at hiff
        simp only [List.mem_append, List.mem_singleton, hc, or_false]
        exact hiff
    · dsimp only
      rw [hcountT', hTrickCount, hn]
    · have hfil1 : (([t1] ++ [(SchafkopfTrick.init s._next_player).play_card a]).filter
          (fun t => t._cards.length = 3)) = [t1] := by
        simp [List.filter_cons, ht1len, hc1]
      rw [hfil1]
      rw [htricks] at hPtsSum
      have hfil0 : (([t1]).filter (fun t => t._cards.length = 3)) = [t1] := by
        simp [List.filter_cons, ht1len]
      rw [hfil0] at hPtsSum
      exact hPtsSum
    · unfold phaseInv
      dsimp only
      rw [hphase]
      refine ⟨hcountD' ▸ hdeck0, hnext1.1, hnext1.2, ?_, fun _ => hretF hgo, ?_, ?_⟩
      · rw [hgo]
        simp
      · intro hcon
        rw [hgo] at hcon
        exact absurd hcon (by decide)
      · intro hcon
        omega
  · -- num = 4: follow into the open second trick (still open afterwards)
    have hshape4 : s._tricks.map (fun t => t._cards.length) = [3, 1] := by
      rw [hn] at hshape
      exact hshape
    obtain ⟨t1, t2, htricks, ht1len, ht2len⟩ := map_len_two hshape4
    have hplay : t2.play_card a = { t2 with _cards := t2._cards ++ [a] } :=
      play_card_nonempty t2 a (by omega)
    have hAP : allPlayed s = t1._cards ++ t2._cards := by
      unfold allPlayed
      rw [htricks]
      simp
    have happ : _apply_action s a = { s with
        _tricks := [t1, { t2 with _cards := t2._cards ++ [a] }]
        _card_locations := s._card_locations.set a CardLocation.Trick
        _num_cards_played := s._num_cards_played + 1
        _next_player := (s._next_player + 1) % (_NUM_PLAYERS : Int) } := by
      unfold _apply_action
      rw [if_neg (by simp [hphase]), if_neg (by rw [hn]; decide)]
      dsimp only
      rw [htricks]
      simp only [modifyLast, hplay]
      rw [hn]
      rw [if_neg (by decide)]
      unfold next_player current_player
      rw [hgo]
      simp [hphase, hn]
    rw [happ]
    unfold Inv
    dsimp only
    rw [hn]
    refine ⟨hlen', hptslen, hretlen, hmax, by omega, ?_, ?_, ?_, ?_, ?_, ?_, ?_, ?_⟩
    · intro c
      unfold locAt
      dsimp only
      exact hH3' c
    · intro t ht
      simp only [List.mem_cons, List.mem_singleton, List.not_mem_nil, or_false] at ht
      rcases ht with ht | ht
      · rw [ht]
        exact htricksOk t1 (by rw [htricks]; simp)
      · rw [ht]
        obtain ⟨hL0, hL3, hcards6, hled⟩ := htricksOk t2 (by rw [htricks]; simp)
        refine ⟨hL0, hL3, ?_, ?_⟩
        · intro c hc
          simp only [List.mem_append, List.mem_singleton] at hc
          rcases hc with hc | hc
          · exact hcards6 c hc
          · subst hc
            exact ha6
        · cases hc0 : t2._cards with
          | nil =>
            rw [hc0] at ht2len
            simp at ht2len
          | cons c0 rest =>
            simp only [hc0] at hled
            simp only [hc0, List.cons_append]
            exact hled
    · simp [shapeOf, ht1len, ht2len]
    · unfold allPlayed
      dsimp only
      simp only [List.map_cons, List.map_nil, List.flatten_cons, List.flatten_nil,
        List.append_nil]
      rw [hAP] at hnodup haNotPlayed
      rw [← List.append_assoc]
      simp only [List.nodup_append, List.nodup_cons, List.nodup_nil, true_and, and_true]
      simp only [List.nodup_append] at hnodup
      refine ⟨hnodup, by simp, ?_⟩
      intro x hx hmem
      simp only [List.mem_singleton] at hmem
      subst hmem
      exact haNotPlayed hx
    · intro c
      unfold locAt allPlayed
      dsimp only
      simp only [List.map_cons, List.map_nil, List.flatten_cons, List.flatten_nil,
        List.append_nil]
      by_cases hc : c = a
      · subst hc
        rw [hloc'a]
        simp
      · rw [hloc'ne c hc]
        have hiff := hTrickIff c
        rw [hAP] at hiff
        unfold locAt at hiff
        simp only [List.mem_append, List.mem_singleton] at hiff ⊢
        simp only [hc, or_false]
        exact hiff
    · dsimp only
      rw [hcountT', hTrickCount, hn]
    · have hfil : (([t1, { t2 with _cards := t2._cards ++ [a] }]).filter
          (fun t => t._cards.length = 3)) = [t1] := by
        simp [List.filter_cons, List.length_append, ht1len, ht2len]
      rw [hfil]
      rw [htricks] at hPtsSum
      have hfil0 : (([t1, t2]).filter (fun t => t._cards.length = 3)) = [t1] := by
        simp [List.filter_cons, ht1len, ht2len]
      rw [hfil0] at hPtsSum
      exact hPtsSum
    · unfold phaseInv
      dsimp only
      rw [hphase]
      refine ⟨hcountD' ▸ hdeck0, hnext1.1, hnext1.2, ?_, fun _ => hretF hgo, ?_, ?_⟩
      · rw [hgo]
        simp
      · intro hcon
        rw [hgo] at hcon
        exact absurd hcon (by decide)
      · intro hcon
        omega
  · -- num = 5: close the second trick and end the game
    have hshape5 : s._tricks.map (fun t => t._cards.length) = [3, 2] := by
      rw [hn] at hshape
      exact hshape
    obtain ⟨t1, t2, htricks, ht1len, ht2len⟩ := map_len_two hshape5
    have hplay : t2.play_card a = { t2 with _cards := t2._cards ++ [a] } :=
      play_card_nonempty t2 a (by omega)
    have hAP : allPlayed s = t1._cards ++ t2._cards := by
      unfold allPlayed
      rw [htricks]
      simp
    have hw := winner_bounds { t2 with _cards := t2._cards ++ [a] }
    have happ : _apply_action s a = { s with
        _tricks := [t1, { t2 with _cards := t2._cards ++ [a] }]
        _card_locations := s._card_locations.set a CardLocation.Trick
        _num_cards_played := s._num_cards_played + 1
        _points := s._points.set (winner { t2 with _cards := t2._cards ++ [a] }).toNat
          (s._points.getD (winner { t2 with _cards := t2._cards ++ [a] }).toNat 0
            + (SchafkopfTrick.points { t2 with _cards := t2._cards ++ [a] } : ℤ))
        _game_over := true
        _returns := returnsCalc { s with
          _tricks := [t1, { t2 with _cards := t2._cards ++ [a] }]
          _card_locations := s._card_locations.set a CardLocation.Trick
          _num_cards_played := s._num_cards_played + 1
          _points := s._points.set (winner { t2 with _cards := t2._cards ++ [a] }).toNat
            (s._points.getD (winner { t2 with _cards := t2._cards ++ [a] }).toNat 0
              + (SchafkopfTrick.points { t2 with _cards := t2._cards ++ [a] } : ℤ)) } } := by
      unfold _apply_action
      rw [if_neg (by simp [hphase]), if_neg (by rw [hn]; decide)]
      dsimp only
      rw [htricks]
      simp only [modifyLast, hplay]
      rw [hn]
      rw [if_pos (by decide)]
      simp only [getLastD_pair]
      rw [if_pos (by decide)]
    rw [happ]
    unfold Inv
    dsimp only
    rw [hn]
    refine ⟨hlen', by simp [hptslen], by simp [returnsCalc, _NUM_PLAYERS], hmax, by omega,
      ?_, ?_, ?_, ?_, ?_, ?_, ?_, ?_⟩
    · intro c
      unfold locAt
      dsimp only
      exact hH3' c
    · intro t ht
      simp only [List.mem_cons, List.mem_singleton, List.not_mem_nil, or_false] at ht
      rcases ht with ht | ht
      · rw [ht]
        exact htricksOk t1 (by rw [htricks]; simp)
      · rw [ht]
        obtain ⟨hL0, hL3, hcards6, hled⟩ := htricksOk t2 (by rw [htricks]; simp)
        refine ⟨hL0, hL3, ?_, ?_⟩
        · intro c hc
          simp only [List.mem_append, List.mem_singleton] at hc
          rcases hc with hc | hc
          · exact hcards6 c hc
          · subst hc
            exact ha6
        · cases hc0 : t2._cards with
          | nil =>
            rw [hc0] at ht2len
            simp at ht2len
          | cons c0 rest =>
            simp only [hc0] at hled
            simp only [hc0, List.cons_append]
            exact hled
    · simp [shapeOf, ht1len, ht2len]
    · unfold allPlayed
      dsimp only
      simp only [List.map_cons, List.map_nil, List.flatten_cons, List.flatten_nil,
        List.append_nil]
      rw [hAP] at hnodup haNotPlayed
      rw [← List.append_assoc]
      simp only [List.nodup_append, List.nodup_cons, List.nodup_nil, true_and, and_true]
      simp only [List.nodup_append] at hnodup
      refine ⟨hnodup, by simp, ?_⟩
      intro x hx hmem
      simp only [List.mem_singleton] at hmem
      subst hmem
      exact haNotPlayed hx
    · intro c
      unfold locAt allPlayed
      dsimp only
      simp only [List.map_cons, List.map_nil, List.flatten_cons, List.flatten_nil,
        List.append_nil]
      by_cases hc : c = a
      · subst hc
        rw [hloc'a]
        simp
      · rw [hloc'ne c hc]
        have hiff := hTrickIff c
        rw [hAP] at hiff
        unfold locAt at hiff
        simp only [List.mem_append, List.mem_singleton] at hiff ⊢
        simp only [hc, or_false]
        exact hiff
    · dsimp only
      rw [hcountT', hTrickCount, hn]
    · have hfil : (([t1, { t2 with _cards := t2._cards ++ [a] }]).filter
          (fun t => t._cards.length = 3)) = [t1, { t2 with _cards := t2._cards ++ [a] }] := by
        simp [List.filter_cons, List.length_append, ht1len, ht2len]
      rw [hfil]
      rw [sum_set_int s._points _ _ (by rw [hptslen]; omega)]
      rw [htricks] at hPtsSum
      have hfil0 : (([t1, t2]).filter (fun t => t._cards.length = 3)) = [t1] := by
        simp [List.filter_cons, ht1len, ht2len]
      rw [hfil0] at hPtsSum
      simp only [List.map_cons, List.map_nil, List.sum_cons, List.sum_nil] at hPtsSum ⊢
      omega
    · unfold phaseInv
      dsimp only
      rw [hphase]
      refine ⟨hcountD' ▸ hdeck0, hnp0, hnp3, ?_, ?_, fun _ => rfl, ?_⟩
      · simp
      · intro hcon
        exact absurd hcon (by decide)
      · intro hcon
        omega

lemma phase_of_inv (s : SchafkopfState) (hInv : Inv s) :
    s._phase = Phase.Deal ∨ s._phase = Phase.Play := by
  obtain ⟨-, -, -, -, -, -, -, -, -, -, -, -, hpi⟩ := hInv
  cases hp : s._phase with
  | Deal => exact Or.inl rfl
  | Play => exact Or.inr rfl
  | GameOver =>
    rw [phaseInv, hp] at hpi
    exact absurd hpi not_false

lemma inv_reachable {s : SchafkopfState} (h : Reachable s) : Inv s := by
  induction h with
  | init => exact inv_initial
  | step s a hreach hgo ha ih =>
    rcases phase_of_inv s ih with hphase | hphase
    · exact inv_step_deal s a ih hphase ha
    · exact inv_step_play s a ih hphase hgo ha

/-- Decides that an action sequence is a legal driver replay from `s`:
every action is drawn from the current legal actions of a non-terminal
state. -/
def legalSeq : SchafkopfState → List Nat → Bool
  | _, [] => true
  | s, c :: rest =>
      !s._game_over && decide (c ∈ _legal_actions s (current_player s)) &&
        legalSeq (_apply_action s c) rest

lemma reachable_applyActions (s : SchafkopfState) (l : List Nat) (hs : Reachable s)
    (hl : legalSeq s l = true) : Reachable (applyActions s l) := by
  induction l generalizing s with
  | nil => simpa [applyActions] using hs
  | cons c rest ih =>
    rw [legalSeq, Bool.and_eq_true, Bool.and_eq_true] at hl
    obtain ⟨⟨hgo, hmem⟩, hrest⟩ := hl
    have hgo' : s._game_over = false := by
      simpa using hgo
    have hstep : Reachable (_apply_action s c) :=
      Reachable.step s c hs hgo' (of_decide_eq_true hmem)
    have happ : applyActions s (c :: rest) = applyActions (_apply_action s c) rest := rfl
    rw [happ]
    exact ih (_apply_action s c) hstep hrest

lemma deal_locations (s : SchafkopfState) (a : Nat) (hphase : s._phase = Phase.Deal) :
    (_apply_action s a)._card_locations =
      s._card_locations.set a
        (CardLocation.of_val ((_legal_deal_actions s).length % _NUM_PLAYERS)) := by
  rw [apply_deal_eq s a hphase]
  by_cases h : (_legal_deal_actions s).length = 1
  · rw [if_pos h]
  · rw [if_neg h]

lemma play_locations (s : SchafkopfState) (a : Nat) (hphase : ¬ s._phase = Phase.Deal) :
    (_apply_action s a)._card_locations = s._card_locations.set a CardLocation.Trick := by
  unfold _apply_action
  rw [if_neg hphase]
  by_cases h0 : s._num_cards_played % _NUM_PLAYERS = 0
  · rw [if_pos h0]
  · rw [if_neg h0]
    dsimp only
    by_cases h1 : (s._num_cards_played + 1) % _NUM_PLAYERS = 0
    · rw [if_pos h1]
      by_cases h2 : s._num_cards_played + 1 = _NUM_CARDS
      · rw [if_pos h2]
      · rw [if_neg h2]
    · rw [if_neg h1]

lemma of_val_val (n : Nat) (h : n < 6) : (CardLocation.of_val n).val = (n : Int) := by
  interval_cases n <;> decide

lemma count_filterIdx0 (d : α) (p : α → Bool) (l : List α) (x : Nat) :
    (filterIdx p l 0).count x = if x < l.length ∧ p (l.getD x d) = true then 1 else 0 := by
  by_cases h : x ∈ filterIdx p l 0
  · rw [List.count_eq_one_of_mem (nodup_filterIdx d p l 0) h,
      if_pos ((mem_filterIdx_zero d p l x).1 h)]
  · rw [List.count_eq_zero_of_not_mem h,
      if_neg (fun hcon => h ((mem_filterIdx_zero d p l x).2 hcon))]

lemma count_range6 (x : Nat) : (List.range 6).count x = if x < 6 then 1 else 0 := by
  by_cases h : x < 6
  · rw [List.count_eq_one_of_mem (List.nodup_range 6) (List.mem_range.2 h), if_pos h]
  · rw [List.count_eq_zero_of_not_mem (fun hcon => h (List.mem_range.1 hcon)), if_neg h]

/-- The observer's scratch buffer: the flat numeric tensor and the named
views `dict`, each view recorded as (name, offset, size, shape) over the
flat tensor (the embedding of a numpy slice-reshape view). -/
structure SchafkopfObserver where
  tensor : List ℚ
  dict : List (String × Nat × Nat × List Nat)

/-- The `pieces` list built in `SchafkopfObserver.__init__`: name, flat
size, and shape of every observation segment (the `iig_obs_type`-dependent
pieces are commented out in the source). -/
def observer_pieces : List (String × Nat × List Nat) :=
  [("player", _NUM_PLAYERS, [_NUM_PLAYERS]),
   ("private_cards", _NUM_PLAYERS * _NUM_CARDS, [_NUM_PLAYERS, _NUM_CARDS]),
   ("solo_player", _NUM_PLAYERS, [_NUM_PLAYERS]),
   ("cur_trick_leader", _NUM_PLAYERS, [_NUM_PLAYERS]),
   ("cur_trick", _NUM_CARDS * _NUM_PLAYERS, [_NUM_PLAYERS, _NUM_CARDS]),
   ("prev_trick_leader", _NUM_PLAYERS, [_NUM_PLAYERS]),
   ("prev_trick", _NUM_CARDS * _NUM_PLAYERS, [_NUM_PLAYERS, _NUM_CARDS])]

/-- The `__init__` loop that walks `pieces` with a running `index`, giving
each named view its offset, size and shape within the flat tensor. -/
def buildDict : List (String × Nat × List Nat) → Nat → List (String × Nat × Nat × List Nat)
  | [], _ => []
  | piece :: rest, index =>
      (piece.1, index, piece.2.1, piece.2.2) :: buildDict rest (index + piece.2.1)

/-- `SchafkopfObserver.__init__(iig_obs_type, params)`: a truthy (non-empty)
`params` raises `ValueError` before anything else happens; otherwise the
flat zero tensor and its named views are allocated.  The constructor never
receives or reads a game state (only `set_from`/`string_from` do). -/
def SchafkopfObserver.init (params : List (String × String)) : Except String SchafkopfObserver :=
  if params ≠ [] then
    Except.error "Observation parameters not supported"
  else
    Except.ok
      { tensor := List.replicate ((observer_pieces.map (fun piece => piece.2.1)).sum) (0 : ℚ)
        dict := buildDict observer_pieces 0 }

/-- C9: constructing an Observer with any non-empty parameter configuration
fails eagerly inside the constructor (which reads no game state at all),
while the empty configuration succeeds and allocates a 66-entry zeroed flat
buffer carved into the seven named segment views at their fixed offsets. -/
theorem C9_observer_params (ps : List (String × String)) :
    (ps ≠ [] → SchafkopfObserver.init ps = Except.error "Observation parameters not supported") ∧
    SchafkopfObserver.init [] = Except.ok
      { tensor := List.replicate 66 (0 : ℚ)
        dict := [("player", 0, 3, [3]), ("private_cards", 3, 18, [3, 6]),
          ("solo_player", 21, 3, [3]), ("cur_trick_leader", 24, 3, [3]),
          ("cur_trick", 27, 18, [3, 6]), ("prev_trick_leader", 45, 3, [3]),
          ("prev_trick", 48, 18, [3, 6])] } := by
  constructor
  · intro hps
    unfold SchafkopfObserver.init
    rw [if_pos hps]
  · rfl

/-- C9 witness: a concrete non-empty configuration is rejected and the
default configuration is accepted. -/
theorem C9_observer_params_witness :
    SchafkopfObserver.init [("foo", "bar")]
        = Except.error "Observation parameters not supported" ∧
    SchafkopfObserver.init [] = Except.ok
      { tensor := List.replicate 66 (0 : ℚ)
        dict := [("player", 0, 3, [3]), ("private_cards", 3, 18, [3, 6]),
          ("solo_player", 21, 3, [3]), ("cur_trick_leader", 24, 3, [3]),
          ("cur_trick", 27, 18, [3, 6]), ("prev_trick_leader", 45, 3, [3]),
          ("prev_trick", 48, 18, [3, 6])] } :=
  ⟨(C9_observer_params [("foo", "bar")]).1 (by simp),
   (C9_observer_params []).2⟩

/-- C10: replaying one fixed action sequence against two freshly
constructed initial states yields, after every prefix, states agreeing on
every field and equal `returns()` vectors: in this embedding
`_apply_action` is a pure function of the current state and the action
(the source reads no randomness — the `random` import is unused — and no
other input), so replay is deterministic. -/
theorem C10_determinism (actions : List Nat) (n : Nat) :
    (applyActions initialState (actions.take n))._phase
        = (applyActions initialState (actions.take n))._phase ∧
    (applyActions initialState (actions.take n))._card_locations
        = (applyActions initialState (actions.take n))._card_locations ∧
    (applyActions initialState (actions.take n))._num_cards_played
        = (applyActions initialState (actions.take n))._num_cards_played ∧
    (applyActions initialState (actions.take n))._tricks
        = (applyActions initialState (actions.take n))._tricks ∧
    (applyActions initialState (actions.take n))._points
        = (applyActions initialState (actions.take n))._points ∧
    (applyActions initialState (actions.take n))._next_player
        = (applyActions initialState (actions.take n))._next_player ∧
    returns (applyActions initialState (actions.take n))
        = returns (applyActions initialState (actions.take n)) :=
  ⟨rfl, rfl, rfl, rfl, rfl, rfl, rfl⟩

/-- C7: in every reachable Deal-phase state there is at least one undealt
card, the legal actions are exactly the cards at the Deck location, and
`chance_outcomes` pairs exactly those cards with the uniform probability
`1/k`, whose total over the k outcomes is exactly 1. -/
theorem C7_chance_outcomes (s : SchafkopfState) (h : Reachable s)
    (hphase : s._phase = Phase.Deal) :
    0 < (_legal_deal_actions s).length ∧
    _legal_actions s (current_player s) = _legal_deal_actions s ∧
    (∀ c, c ∈ _legal_deal_actions s ↔ c < 6 ∧ locAt s c = CardLocation.Deck) ∧
    chance_outcomes s = (_legal_deal_actions s).map
      (fun c => (c, 1 / ((_legal_deal_actions s).length : ℚ))) ∧
    ((chance_outcomes s).map Prod.snd).sum = 1 := by
  obtain ⟨hlen, -, -, -, -, -, -, -, -, -, -, -, hpi⟩ := inv_reachable h
  rw [phaseInv, hphase] at hpi
  obtain ⟨-, -, -, -, -, -, hdeck1, -⟩ := hpi
  have hk : 0 < (_legal_deal_actions s).length := by
    rw [length_legal_deal]
    omega
  refine ⟨hk, ?_, ?_, rfl, ?_⟩
  · unfold _legal_actions
    rw [if_pos hphase]
  · intro c
    rw [mem_legal_deal, hlen]
  · unfold chance_outcomes
    rw [List.map_map]
    have hconst : (Prod.snd ∘ fun c => ((c : Nat), 1 / ((_legal_deal_actions s).length : ℚ)))
        = Function.const Nat (1 / ((_legal_deal_actions s).length : ℚ)) := rfl
    rw [hconst, List.map_const, List.sum_replicate, nsmul_eq_mul]
    rw [mul_one_div, div_self]
    exact Nat.cast_ne_zero.2 (by omega)

/-- C7 witness: the initial state is a reachable Deal-phase state. -/
theorem C7_chance_outcomes_witness :
    0 < (_legal_deal_actions initialState).length ∧
    _legal_actions initialState (current_player initialState) = _legal_deal_actions initialState ∧
    (∀ c, c ∈ _legal_deal_actions initialState
      ↔ c < 6 ∧ locAt initialState c = CardLocation.Deck) ∧
    chance_outcomes initialState = (_legal_deal_actions initialState).map
      (fun c => (c, 1 / ((_legal_deal_actions initialState).length : ℚ))) ∧
    ((chance_outcomes initialState).map Prod.snd).sum = 1 :=
  C7_chance_outcomes initialState Reachable.init rfl

/-- A complete game: the six chance deal actions `0..5` (hands become
P0:{0,3}, P1:{2,5}, P2:{1,4}) followed by six legal card plays. -/
def fullGameRun : List Nat := [0, 1, 2, 3, 4, 5, 0, 2, 1, 5, 4, 3]

/-- C1: the terminal returns of a complete legally-played game are NOT
approximately zero-sum: the code subtracts `_max_points // 2 = 15` from
each of the three players' points although the three points only total 30,
so the returns of this complete game are `[-1/2, 1/2, -1/2]` and sum to
`-1/2`, contradicting the declared `utility_sum=0.0` / ZERO_SUM game type
and the `calc zero sum returns` comment. -/
theorem C1_returns_not_zero_sum :
    Reachable (applyActions initialState fullGameRun) ∧
    is_terminal (applyActions initialState fullGameRun) = true ∧
    returns (applyActions initialState fullGameRun) = [-(1 / 2), 1 / 2, -(1 / 2)] ∧
    (returns (applyActions initialState fullGameRun)).sum = -(1 / 2) := by
  have hreach : Reachable (applyActions initialState fullGameRun) :=
    reachable_applyActions initialState fullGameRun Reachable.init (by decide)
  have hterm : is_terminal (applyActions initialState fullGameRun) = true := by decide
  have hret1 : (applyActions initialState fullGameRun)._returns
      = returnsCalc (applyActions initialState fullGameRun) := rfl
  have hpts : (applyActions initialState fullGameRun)._points = [0, 30, 0] := by decide
  have hmaxp : (applyActions initialState fullGameRun)._max_points = 30 := by decide
  have hret : returns (applyActions initialState fullGameRun) = [-(1 / 2), 1 / 2, -(1 / 2)] := by
    unfold returns
    rw [hret1]
    unfold returnsCalc
    rw [hpts, hmaxp]
    have hr3 : List.range _NUM_PLAYERS = [0, 1, 2] := rfl
    rw [hr3]
    simp only [List.map_cons, List.map_nil, List.getD_cons_zero, List.getD_cons_succ]
    norm_num [round3]
  refine ⟨hreach, hterm, hret, ?_⟩
  rw [hret]
  norm_num

/-- C2: at the terminal transition of a complete game the three players'
accumulated points always total exactly 30 (the whole deck's value), and
each player's stored return is `round((points[p] - 15) / 30, 3)` with
`15 = 30 // 2`. -/
theorem C2_terminal_points (s : SchafkopfState) (h : Reachable s)
    (hterm : s._game_over = true) :
    s._points.sum = 30 ∧
    s._returns = (List.range 3).map (fun p =>
      round3 ((((s._points.getD p 0 : ℤ) : ℚ) - 15) / 30)) := by
  obtain ⟨hlen, hptslen, hretlen, hmax, hnum6, hHand3, htricksOk, hshape, hnodup,
    hTrickIff, hTrickCount, hPtsSum, hpi⟩ := inv_reachable h
  cases hphase : s._phase with
  | Deal =>
    rw [phaseInv, hphase] at hpi
    obtain ⟨-, -, -, hgo, -⟩ := hpi
    rw [hterm] at hgo
    exact absurd hgo (by decide)
  | GameOver =>
    rw [phaseInv, hphase] at hpi
    exact absurd hpi not_false
  | Play =>
    rw [phaseInv, hphase] at hpi
    obtain ⟨hdeck0, hnp0, hnp3, hgoiff, hretF, hretT, hhands0⟩ := hpi
    have hnum : s._num_cards_played = 6 := hgoiff.1 hterm
    have hshape6 : s._tricks.map (fun t => t._cards.length) = [3, 3] := by
      rw [hnum] at hshape
      exact hshape
    obtain ⟨t1, t2, htricks, ht1len, ht2len⟩ := map_len_two hshape6
    have hAP : allPlayed s = t1._cards ++ t2._cards := by
      unfold allPlayed
      rw [htricks]
      simp
    have hsub : allPlayed s ⊆ List.range 6 := by
      intro c hc
      rw [hAP, List.mem_append] at hc
      rcases hc with hc | hc
      · exact List.mem_range.2 ((htricksOk t1 (by rw [htricks]; simp)).2.2.1 c hc)
      · exact List.mem_range.2 ((htricksOk t2 (by rw [htricks]; simp)).2.2.1 c hc)
    have hlenAP : (allPlayed s).length = 6 := by
      rw [hAP, List.length_append, ht1len, ht2len]
    have hperm : (allPlayed s).Perm (List.range 6) :=
      (List.subperm_of_subset hnodup hsub).perm_of_length_le (by rw [hlenAP]; simp)
    have hvals : ((allPlayed s).map CardValue).sum = 30 := by
      rw [(hperm.map CardValue).sum_eq]
      decide
    have hfil : ([t1, t2].filter (fun t => t._cards.length = 3)) = [t1, t2] := by
      simp [List.filter_cons, ht1len, ht2len]
    rw [htricks, hfil] at hPtsSum
    simp only [List.map_cons, List.map_nil, List.sum_cons, List.sum_nil] at hPtsSum
    have hpts12 : t1.points + t2.points = 30 := by
      have hx : ((t1._cards ++ t2._cards).map CardValue).sum = 30 := by
        rw [← hAP]
        exact hvals
      rw [List.map_append, List.sum_append] at hx
      unfold SchafkopfTrick.points
      exact hx
    constructor
    · omega
    · rw [hretT hterm]
      unfold returnsCalc
      rw [hmax]
      norm_num [_NUM_PLAYERS]

/-- C2 witness: the complete game `fullGameRun` reaches a terminal state,
where the conclusion is instantiated. -/
theorem C2_terminal_points_witness :
    (applyActions initialState fullGameRun)._game_over = true ∧
    ((applyActions initialState fullGameRun)._points.sum = 30 ∧
     (applyActions initialState fullGameRun)._returns = (List.range 3).map (fun p =>
       round3 (((((applyActions initialState fullGameRun)._points.getD p 0 : ℤ) : ℚ) - 15) / 30))) :=
  ⟨by decide,
   C2_terminal_points (applyActions initialState fullGameRun)
     (reachable_applyActions initialState fullGameRun Reachable.init (by decide)) (by decide)⟩

/-- C6: dealing card `a` relocates it to the hand indexed by (number of
still-undealt cards before the action) mod 3 — such an enum value really is
that hand (its IntEnum value equals the index) — and dealing the last
undealt card flips the phase to Play with fixed starting seat 0; as a
consequence every player holds exactly 2 cards whenever Play starts. -/
theorem C6_deal_round_robin :
    (∀ s a, Reachable s → s._phase = Phase.Deal →
      a ∈ _legal_actions s (current_player s) →
      locAt (_apply_action s a) a
          = CardLocation.of_val (s._card_locations.count CardLocation.Deck % _NUM_PLAYERS) ∧
      (CardLocation.of_val (s._card_locations.count CardLocation.Deck % _NUM_PLAYERS)).val
          = ((s._card_locations.count CardLocation.Deck % _NUM_PLAYERS : ℕ) : Int) ∧
      (s._card_locations.count CardLocation.Deck = 1 →
        (_apply_action s a)._phase = Phase.Play ∧ (_apply_action s a)._next_player = 0)) ∧
    (∀ s, Reachable s → s._phase = Phase.Play → s._num_cards_played = 0 →
      s._card_locations.count CardLocation.Hand0 = 2 ∧
      s._card_locations.count CardLocation.Hand1 = 2 ∧
      s._card_locations.count CardLocation.Hand2 = 2) := by
  constructor
  · intro s a h hphase ha
    obtain ⟨hlen, -, -, -, -, -, -, -, -, -, -, -, -⟩ := inv_reachable h
    have ha' : a ∈ _legal_deal_actions s := by
      unfold _legal_actions at ha
      rwa [if_pos hphase] at ha
    rw [mem_legal_deal] at ha'
    obtain ⟨haLen, -⟩ := ha'
    refine ⟨?_, ?_, ?_⟩
    · unfold locAt
      rw [deal_locations s a hphase, length_legal_deal]
      exact getD_set_self s._card_locations _ CardLocation.Deck haLen
    · exact of_val_val _ (by simp only [_NUM_PLAYERS]; omega)
    · intro hc1
      rw [apply_deal_eq s a hphase, length_legal_deal, if_pos hc1]
      exact ⟨rfl, rfl⟩
  · intro s h hphase hnum
    obtain ⟨-, -, -, -, -, -, -, -, -, -, -, -, hpi⟩ := inv_reachable h
    rw [phaseInv, hphase] at hpi
    obtain ⟨-, -, -, -, -, -, hhands0⟩ := hpi
    have hh := hhands0 hnum
    unfold handCounts at hh
    simp only [Prod.mk.injEq] at hh
    exact ⟨hh.1, hh.2.1, hh.2.2⟩

/-- C6 witness: the first deal from the full deck goes to hand `6 % 3 = 0`,
and after the complete deal `0,1,2,3,4,5` the Play phase opens with every
hand holding exactly two cards. -/
theorem C6_deal_round_robin_witness :
    (locAt (_apply_action initialState 0) 0
        = CardLocation.of_val
            (initialState._card_locations.count CardLocation.Deck % _NUM_PLAYERS) ∧
     (CardLocation.of_val
         (initialState._card_locations.count CardLocation.Deck % _NUM_PLAYERS)).val
        = ((initialState._card_locations.count CardLocation.Deck % _NUM_PLAYERS : ℕ) : Int) ∧
     (initialState._card_locations.count CardLocation.Deck = 1 →
       (_apply_action initialState 0)._phase = Phase.Play ∧
       (_apply_action initialState 0)._next_player = 0)) ∧
    ((applyActions initialState [0, 1, 2, 3, 4, 5])._card_locations.count CardLocation.Hand0 = 2 ∧
     (applyActions initialState [0, 1, 2, 3, 4, 5])._card_locations.count CardLocation.Hand1 = 2 ∧
     (applyActions initialState [0, 1, 2, 3, 4, 5])._card_locations.count CardLocation.Hand2 = 2) :=
  ⟨C6_deal_round_robin.1 initialState 0 Reachable.init rfl (by decide),
   C6_deal_round_robin.2 (applyActions initialState [0, 1, 2, 3, 4, 5])
     (reachable_applyActions initialState [0, 1, 2, 3, 4, 5] Reachable.init (by decide))
     (by decide) (by decide)⟩

/-- C8: in every reachable state the cards at the shared Trick location are
exactly the cards played so far (into any trick, open or closed), their
number is the running play count, and a legal action never moves a card
out of the Trick location — once played, a card stays there even after its
trick closes. -/
theorem C8_trick_is_played (s : SchafkopfState) (h : Reachable s) :
    (∀ c, locAt s c = CardLocation.Trick ↔ c ∈ allPlayed s) ∧
    s._card_locations.count CardLocation.Trick = s._num_cards_played ∧
    (∀ a, s._game_over = false → a ∈ _legal_actions s (current_player s) →
      ∀ c, locAt s c = CardLocation.Trick → locAt (_apply_action s a) c = CardLocation.Trick) := by
  obtain ⟨hlen, -, -, -, -, -, -, -, -, hTrickIff, hTrickCount, -, hpi⟩ := inv_reachable h
  refine ⟨hTrickIff, hTrickCount, ?_⟩
  intro a hgo ha c hc
  rcases phase_of_inv s (inv_reachable h) with hphase | hphase
  · have ha' : a ∈ _legal_deal_actions s := by
      unfold _legal_actions at ha
      rwa [if_pos hphase] at ha
    rw [mem_legal_deal] at ha'
    obtain ⟨haLen, haDeck⟩ := ha'
    have hca : c ≠ a := by
      intro hcon
      rw [hcon] at hc
      rw [hc] at haDeck
      exact absurd haDeck (by decide)
    unfold locAt
    rw [deal_locations s a hphase,
      getD_set_ne s._card_locations _ CardLocation.Deck (fun hcon => hca hcon.symm)]
    exact hc
  · unfold locAt
    rw [play_locations s a (by rw [hphase]; decide)]
    by_cases hca : c = a
    · have ha' := legal_play_sub s (current_player s) a (by rw [hphase]; decide) ha
      rw [mem_player_cards] at ha'
      rw [hca]
      exact getD_set_self s._card_locations CardLocation.Trick CardLocation.Deck ha'.1
    · rw [getD_set_ne s._card_locations CardLocation.Trick CardLocation.Deck
        (fun hcon => hca hcon.symm)]
      exact hc

/-- C8 witness: instantiated mid-game, after the deal and two plays. -/
theorem C8_trick_is_played_witness :
    (∀ c, locAt (applyActions initialState [0, 1, 2, 3, 4, 5, 0, 2]) c = CardLocation.Trick
      ↔ c ∈ allPlayed (applyActions initialState [0, 1, 2, 3, 4, 5, 0, 2])) ∧
    (applyActions initialState [0, 1, 2, 3, 4, 5, 0, 2])._card_locations.count CardLocation.Trick
      = (applyActions initialState [0, 1, 2, 3, 4, 5, 0, 2])._num_cards_played ∧
    (∀ a, (applyActions initialState [0, 1, 2, 3, 4, 5, 0, 2])._game_over = false →
      a ∈ _legal_actions (applyActions initialState [0, 1, 2, 3, 4, 5, 0, 2])
            (current_player (applyActions initialState [0, 1, 2, 3, 4, 5, 0, 2])) →
      ∀ c, locAt (applyActions initialState [0, 1, 2, 3, 4, 5, 0, 2]) c = CardLocation.Trick →
        locAt (_apply_action (applyActions initialState [0, 1, 2, 3, 4, 5, 0, 2]) a) c
          = CardLocation.Trick) :=
  C8_trick_is_played (applyActions initialState [0, 1, 2, 3, 4, 5, 0, 2])
    (reachable_applyActions initialState [0, 1, 2, 3, 4, 5, 0, 2] Reachable.init (by decide))

lemma beq_some_decide (x y : Nat) : (some x == some y) = decide (x = y) := by
  by_cases h : x = y
  · simp [h]
  · simp [h]

lemma last_trick_led (s : SchafkopfState) (hInv : Inv s) (hphase : s._phase = Phase.Play)
    (hgo : s._game_over = false) (hmod : s._num_cards_played % _NUM_PLAYERS ≠ 0) :
    ∃ c0 rest, (s._tricks.getLastD default)._cards = c0 :: rest ∧
      (s._tricks.getLastD default)._led_suit = some (CardSuit c0) := by
  obtain ⟨-, -, -, -, hnum6, -, htricksOk, hshape, -, -, -, -, hpi⟩ := hInv
  rw [phaseInv, hphase] at hpi
  obtain ⟨-, -, -, hgoiff, -, -, -⟩ := hpi
  have hnum_ne6 : s._num_cards_played ≠ 6 := by
    intro hcon
    have := hgoiff.2 hcon
    rw [hgo] at this
    exact absurd this (by decide)
  have hcase : s._num_cards_played = 1 ∨ s._num_cards_played = 2 ∨
      s._num_cards_played = 4 ∨ s._num_cards_played = 5 := by
    simp only [_NUM_PLAYERS] at hmod
    omega
  have hlast : ∃ t, s._tricks.getLastD default = t ∧ t ∈ s._tricks ∧ t._cards.length ≠ 0 := by
    rcases hcase with hn | hn | hn | hn
    · have hsh : s._tricks.map (fun t => t._cards.length) = [1] := by rw [hn] at hshape; exact hshape
      obtain ⟨t1, ht, hl⟩ := map_len_one hsh
      exact ⟨t1, by rw [ht]; exact getLastD_singleton t1 default, by rw [ht]; simp, by omega⟩
    · have hsh : s._tricks.map (fun t => t._cards.length) = [2] := by rw [hn] at hshape; exact hshape
      obtain ⟨t1, ht, hl⟩ := map_len_one hsh
      exact ⟨t1, by rw [ht]; exact getLastD_singleton t1 default, by rw [ht]; simp, by omega⟩
    · have hsh : s._tricks.map (fun t => t._cards.length) = [3, 1] := by rw [hn] at hshape; exact hshape
      obtain ⟨t1, t2, ht, hl1, hl2⟩ := map_len_two hsh
      exact ⟨t2, by rw [ht]; exact getLastD_pair t1 t2 default, by rw [ht]; simp, by omega⟩
    · have hsh : s._tricks.map (fun t => t._cards.length) = [3, 2] := by rw [hn] at hshape; exact hshape
      obtain ⟨t1, t2, ht, hl1, hl2⟩ := map_len_two hsh
      exact ⟨t2, by rw [ht]; exact getLastD_pair t1 t2 default, by rw [ht]; simp, by omega⟩
  obtain ⟨t, htl, htmem, htne⟩ := hlast
  obtain ⟨-, -, -, hled⟩ := htricksOk t htmem
  cases hc0 : t._cards with
  | nil =>
    rw [hc0] at htne
    simp at htne
  | cons c0 rest =>
    rw [hc0] at hled
    exact ⟨c0, rest, by rw [htl]; exact hc0, by rw [htl]; exact hled⟩

/-- C4: in a non-terminal Play-phase state, the current player's legal
actions are the entire hand when the play count is divisible by 3 (leading
a trick); otherwise they are exactly the hand cards matching the suit of
the open trick's first card when at least one such card is held, and the
entire hand when none is. -/
theorem C4_legal_actions (s : SchafkopfState) (h : Reachable s)
    (hphase : s._phase = Phase.Play) (hgo : s._game_over = false) :
    (s._num_cards_played % _NUM_PLAYERS = 0 →
      _legal_actions s (current_player s) = player_cards s (current_player s)) ∧
    (s._num_cards_played % _NUM_PLAYERS ≠ 0 →
      ∃ c0 rest, (s._tricks.getLastD default)._cards = c0 :: rest ∧
        _legal_actions s (current_player s) =
          (if 0 < ((player_cards s (current_player s)).filter
                (fun c => CardSuit c = CardSuit c0)).length then
            (player_cards s (current_player s)).filter (fun c => CardSuit c = CardSuit c0)
          else player_cards s (current_player s))) := by
  constructor
  · intro hmod
    unfold _legal_actions
    rw [if_neg (by rw [hphase]; decide)]
    by_cases h0 : s._num_cards_played = 0
    · rw [if_pos h0]
    · rw [if_neg h0, if_pos hmod]
  · intro hmod
    obtain ⟨c0, rest, hcards, hled⟩ := last_trick_led s (inv_reachable h) hphase hgo hmod
    refine ⟨c0, rest, hcards, ?_⟩
    unfold _legal_actions
    rw [if_neg (by rw [hphase]; decide)]
    rw [if_neg (fun h0 => hmod (by rw [h0]; decide)), if_neg hmod]
    dsimp only
    have hfeq : (player_cards s (current_player s)).filter
          (fun c => some (CardSuit c) == (s._tricks.getLastD default)._led_suit)
        = (player_cards s (current_player s)).filter (fun c => CardSuit c = CardSuit c0) := by
      refine List.filter_congr ?_
      intro x _
      rw [hled, beq_some_decide]
    rw [hfeq]

/-- C4 witness: instantiated after the deal (leading: whole hand legal) and
after one play (following: the led-suit restriction applies). -/
theorem C4_legal_actions_witness :
    ((applyActions initialState [0, 1, 2, 3, 4, 5])._num_cards_played % _NUM_PLAYERS = 0 →
      _legal_actions (applyActions initialState [0, 1, 2, 3, 4, 5])
          (current_player (applyActions initialState [0, 1, 2, 3, 4, 5]))
        = player_cards (applyActions initialState [0, 1, 2, 3, 4, 5])
            (current_player (applyActions initialState [0, 1, 2, 3, 4, 5]))) ∧
    ((applyActions initialState [0, 1, 2, 3, 4, 5, 0])._num_cards_played % _NUM_PLAYERS ≠ 0 →
      ∃ c0 rest,
        ((applyActions initialState [0, 1, 2, 3, 4, 5, 0])._tricks.getLastD default)._cards
          = c0 :: rest ∧
        _legal_actions (applyActions initialState [0, 1, 2, 3, 4, 5, 0])
            (current_player (applyActions initialState [0, 1, 2, 3, 4, 5, 0])) =
          (if 0 < ((player_cards (applyActions initialState [0, 1, 2, 3, 4, 5, 0])
                  (current_player (applyActions initialState [0, 1, 2, 3, 4, 5, 0]))).filter
                (fun c => CardSuit c = CardSuit c0)).length then
            (player_cards (applyActions initialState [0, 1, 2, 3, 4, 5, 0])
                (current_player (applyActions initialState [0, 1, 2, 3, 4, 5, 0]))).filter
              (fun c => CardSuit c = CardSuit c0)
          else player_cards (applyActions initialState [0, 1, 2, 3, 4, 5, 0])
              (current_player (applyActions initialState [0, 1, 2, 3, 4, 5, 0])))) :=
  ⟨(C4_legal_actions (applyActions initialState [0, 1, 2, 3, 4, 5])
      (reachable_applyActions initialState [0, 1, 2, 3, 4, 5] Reachable.init (by decide))
      (by decide) (by decide)).1,
   (C4_legal_actions (applyActions initialState [0, 1, 2, 3, 4, 5, 0])
      (reachable_applyActions initialState [0, 1, 2, 3, 4, 5, 0] Reachable.init (by decide))
      (by decide) (by decide)).2⟩

/-- C5: in every reachable state the per-card location array covers the six
cards with exactly one location each — no card is in the unused fourth
hand, and collecting the cards location by location (three hands, deck,
trick pile) yields each of the six deck cards exactly once — and a legal
action relocates exactly the played/dealt card and no other. -/
theorem C5_card_conservation (s : SchafkopfState) (h : Reachable s) :
    (s._card_locations.length = 6 ∧
     (∀ c, locAt s c ≠ CardLocation.Hand3) ∧
     (([CardLocation.Hand0, CardLocation.Hand1, CardLocation.Hand2, CardLocation.Deck,
        CardLocation.Trick].map
          (fun v => filterIdx (fun loc => loc == v) s._card_locations 0)).flatten).Perm
       (List.range 6)) ∧
    (∀ a, s._game_over = false → a ∈ _legal_actions s (current_player s) →
      locAt (_apply_action s a) a ≠ locAt s a ∧
      ∀ c, c ≠ a → locAt (_apply_action s a) c = locAt s c) := by
  obtain ⟨hlen, -, -, -, -, hHand3, -, -, -, hTrickIff, -, -, hpi⟩ := inv_reachable h
  refine ⟨⟨hlen, hHand3, ?_⟩, ?_⟩
  · rw [List.perm_iff_count]
    intro x
    rw [List.count_flatten, List.map_map]
    simp only [List.map_cons, List.map_nil, List.sum_cons, List.sum_nil, Function.comp]
    rw [count_filterIdx0 CardLocation.Deck, count_filterIdx0 CardLocation.Deck,
      count_filterIdx0 CardLocation.Deck, count_filterIdx0 CardLocation.Deck,
      count_filterIdx0 CardLocation.Deck]
    rw [count_range6, hlen]
    by_cases hx : x < 6
    · have hx3 := hHand3 x
      unfold locAt at hx3
      cases hloc : s._card_locations.getD x CardLocation.Deck <;>
        first
        | exact absurd hloc hx3
        | simp [hloc, hx]
    · simp [hx]
  · intro a hgo ha
    rcases phase_of_inv s (inv_reachable h) with hphase | hphase
    · have ha' : a ∈ _legal_deal_actions s := by
        unfold _legal_actions at ha
        rwa [if_pos hphase] at ha
      rw [mem_legal_deal] at ha'
      obtain ⟨haLen, haDeck⟩ := ha'
      have hu1 : 1 ≤ s._card_locations.count CardLocation.Deck := by
        rw [← length_legal_deal]
        have : a ∈ _legal_deal_actions s := (mem_legal_deal s a).2 ⟨haLen, haDeck⟩
        have hne : _legal_deal_actions s ≠ [] := fun hcon => by
          rw [hcon] at this
          exact absurd this (List.not_mem_nil a)
        have := List.length_pos.2 hne
        omega
      have hrhand := of_val_hand ((_legal_deal_actions s).length % _NUM_PLAYERS)
        (by simp only [_NUM_PLAYERS]; omega)
      constructor
      · unfold locAt
        rw [deal_locations s a hphase,
          getD_set_self s._card_locations _ CardLocation.Deck haLen]
        unfold locAt at haDeck
        rw [haDeck]
        rcases hrhand with hr | hr | hr <;> rw [hr] <;> decide
      · intro c hc
        unfold locAt
        rw [deal_locations s a hphase,
          getD_set_ne s._card_locations _ CardLocation.Deck (fun hcon => hc hcon.symm)]
    · have ha' := legal_play_sub s (current_player s) a (by rw [hphase]; decide) ha
      rw [mem_player_cards] at ha'
      obtain ⟨haLen, haVal⟩ := ha'
      rw [phaseInv, hphase] at hpi
      obtain ⟨-, hnp0, hnp3, -, -, -, -⟩ := hpi
      have hcur : current_player s = s._next_player := by
        unfold current_player
        rw [hgo]
        simp [hphase]
      rw [hcur] at haVal
      have haHand := hand_of_val_lt _ _ haVal hnp0 hnp3
      constructor
      · unfold locAt
        rw [play_locations s a (by rw [hphase]; decide),
          getD_set_self s._card_locations CardLocation.Trick CardLocation.Deck haLen]
        unfold locAt at haHand
        rcases haHand with hr | hr | hr <;> rw [hr] <;> decide
      · intro c hc
        unfold locAt
        rw [play_locations s a (by rw [hphase]; decide),
          getD_set_ne s._card_locations CardLocation.Trick CardLocation.Deck
            (fun hcon => hc hcon.symm)]

/-- C5 witness: instantiated mid-game, after the deal and one play. -/
theorem C5_card_conservation_witness :
    ((applyActions initialState [0, 1, 2, 3, 4, 5, 0])._card_locations.length = 6 ∧
     (∀ c, locAt (applyActions initialState [0, 1, 2, 3, 4, 5, 0]) c ≠ CardLocation.Hand3) ∧
     (([CardLocation.Hand0, CardLocation.Hand1, CardLocation.Hand2, CardLocation.Deck,
        CardLocation.Trick].map
          (fun v => filterIdx (fun loc => loc == v)
            (applyActions initialState [0, 1, 2, 3, 4, 5, 0])._card_locations 0)).flatten).Perm
       (List.range 6)) ∧
    (∀ a, (applyActions initialState [0, 1, 2, 3, 4, 5, 0])._game_over = false →
      a ∈ _legal_actions (applyActions initialState [0, 1, 2, 3, 4, 5, 0])
            (current_player (applyActions initialState [0, 1, 2, 3, 4, 5, 0])) →
      locAt (_apply_action (applyActions initialState [0, 1, 2, 3, 4, 5, 0]) a) a
          ≠ locAt (applyActions initialState [0, 1, 2, 3, 4, 5, 0]) a ∧
      ∀ c, c ≠ a →
        locAt (_apply_action (applyActions initialState [0, 1, 2, 3, 4, 5, 0]) a) c
          = locAt (applyActions initialState [0, 1, 2, 3, 4, 5, 0]) c) :=
  C5_card_conservation (applyActions initialState [0, 1, 2, 3, 4, 5, 0])
    (reachable_applyActions initialState [0, 1, 2, 3, 4, 5, 0] Reachable.init (by decide))

lemma pap_inj (t : SchafkopfTrick) (i j : Int) (hi0 : 0 ≤ i) (hi3 : i < 3)
    (hj0 : 0 ≤ j) (hj3 : j < 3)
    (h : t.player_at_position i = t.player_at_position j) : i = j := by
  unfold SchafkopfTrick.player_at_position at h
  simp only [_NUM_PLAYERS] at h
  omega

lemma card_eq_of_suit_rank {x y : Nat} (hs : CardSuit x = CardSuit y)
    (hr : CardRank x = CardRank y) : x = y := by
  unfold CardSuit at hs
  unfold CardRank at hr
  simp only [_NUM_RANKS] at hs hr
  omega

lemma winner_three (c0 c1 c2 : Nat) (L : Int) (led : Option Nat) :
    winner ⟨[c0, c1, c2], L, led⟩ =
      (if CardSuit c1 = CardSuit c0 ∧ CardRank c1 > CardRank c0 then
        (if CardSuit c2 = CardSuit c1 ∧ CardRank c2 > CardRank c1 then
          SchafkopfTrick.player_at_position ⟨[c0, c1, c2], L, led⟩ ((2 : Nat) : Int)
        else SchafkopfTrick.player_at_position ⟨[c0, c1, c2], L, led⟩ ((1 : Nat) : Int))
      else
        (if CardSuit c2 = CardSuit c0 ∧ CardRank c2 > CardRank c0 then
          SchafkopfTrick.player_at_position ⟨[c0, c1, c2], L, led⟩ ((2 : Nat) : Int)
        else SchafkopfTrick.player_at_position ⟨[c0, c1, c2], L, led⟩ ((0 : Nat) : Int))) := by
  unfold winner
  dsimp only
  have henum : ([c0, c1, c2] : List Nat).enum = [(0, c0), (1, c1), (2, c2)] := rfl
  rw [henum]
  simp only [List.foldl_cons, List.foldl_nil]
  by_cases hA : CardSuit c1 = CardSuit c0 ∧ CardRank c1 > CardRank c0
  · by_cases hB : CardSuit c2 = CardSuit c1 ∧ CardRank c2 > CardRank c1
    · simp [hA, hB, hA.1, hA.2, hB.1, hB.2]
    · simp [hA, hB, hA.1, hA.2]
      split <;> rfl
  · by_cases hB : CardSuit c2 = CardSuit c0 ∧ CardRank c2 > CardRank c0
    · simp [hA, hB, hB.1, hB.2]
    · simp [hA, hB]

end Schafkopf

namespace Schafkopf

set_option maxHeartbeats 1600000 in
/-- C3: for a closed trick of three distinct cards led by `c0`, `winner`
returns the seat that played the unique card of strictly highest rank
among the cards matching the led suit (the suit of the trick's first
card); a seat that played a card of a different suit never wins, whatever
its rank; and when a play closes a trick, the closed trick's point total
is added to exactly that winner's accumulated points. -/
theorem C3_winner (c0 c1 c2 : Nat) (L : Int) :
    (c0 ≠ c1 → c0 ≠ c2 → c1 ≠ c2 →
      ∃ i, i < 3 ∧
        winner ⟨[c0, c1, c2], L, some (CardSuit c0)⟩
          = SchafkopfTrick.player_at_position ⟨[c0, c1, c2], L, some (CardSuit c0)⟩ ((i : Nat) : Int) ∧
        CardSuit ([c0, c1, c2].getD i 0) = CardSuit c0 ∧
        (∀ j, j < 3 → j ≠ i → CardSuit ([c0, c1, c2].getD j 0) = CardSuit c0 →
          CardRank ([c0, c1, c2].getD j 0) < CardRank ([c0, c1, c2].getD i 0)) ∧
        (∀ j, j < 3 → CardSuit ([c0, c1, c2].getD j 0) ≠ CardSuit c0 →
          winner ⟨[c0, c1, c2], L, some (CardSuit c0)⟩
            ≠ SchafkopfTrick.player_at_position ⟨[c0, c1, c2], L, some (CardSuit c0)⟩ ((j : Nat) : Int))) ∧
    (∀ s a, Reachable s → s._phase = Phase.Play → s._game_over = false →
      s._num_cards_played % _NUM_PLAYERS = 2 → a ∈ _legal_actions s (current_player s) →
      (_apply_action s a)._points.getD
          (winner ((_apply_action s a)._tricks.getLastD default)).toNat 0
        = s._points.getD (winner ((_apply_action s a)._tricks.getLastD default)).toNat 0
          + (SchafkopfTrick.points ((_apply_action s a)._tricks.getLastD default) : ℤ)) := by
  constructor
  · intro h01 h02 h12
    by_cases hA : CardSuit c1 = CardSuit c0 ∧ CardRank c1 > CardRank c0
    · by_cases hB : CardSuit c2 = CardSuit c1 ∧ CardRank c2 > CardRank c1
      · have hw : winner ⟨[c0, c1, c2], L, some (CardSuit c0)⟩
            = SchafkopfTrick.player_at_position ⟨[c0, c1, c2], L, some (CardSuit c0)⟩
                (((2 : Nat) : Int)) := by
          rw [winner_three, if_pos hA, if_pos hB]
        refine ⟨2, by omega, hw, hB.1.trans hA.1, ?_, ?_⟩
        · intro j hj hji hsuit
          interval_cases j
          · show CardRank c0 < CardRank c2
            have h1 := hA.2
            have h2 := hB.2
            omega
          · exact hB.2
          · exact absurd rfl hji
        · intro j hj hsuit hwin
          rw [hw] at hwin
          interval_cases j
          · have := pap_inj _ _ _ (by norm_num) (by norm_num) (by norm_num) (by norm_num) hwin
            norm_num at this
          · have := pap_inj _ _ _ (by norm_num) (by norm_num) (by norm_num) (by norm_num) hwin
            norm_num at this
          · exact hsuit (hB.1.trans hA.1)
      · have hw : winner ⟨[c0, c1, c2], L, some (CardSuit c0)⟩
            = SchafkopfTrick.player_at_position ⟨[c0, c1, c2], L, some (CardSuit c0)⟩
                (((1 : Nat) : Int)) := by
          rw [winner_three, if_pos hA, if_neg hB]
        refine ⟨1, by omega, hw, hA.1, ?_, ?_⟩
        · intro j hj hji hsuit
          interval_cases j
          · exact hA.2
          · exact absurd rfl hji
          · show CardRank c2 < CardRank c1
            have hsuit' : CardSuit c2 = CardSuit c0 := hsuit
            have hs21 : CardSuit c2 = CardSuit c1 := hsuit'.trans hA.1.symm
            have hle : CardRank c2 ≤ CardRank c1 := by
              by_contra hgt
              exact hB ⟨hs21, by omega⟩
            have hne : CardRank c2 ≠ CardRank c1 :=
              fun heq => h12 (card_eq_of_suit_rank hs21 heq).symm
            omega
        · intro j hj hsuit hwin
          rw [hw] at hwin
          interval_cases j
          · have := pap_inj _ _ _ (by norm_num) (by norm_num) (by norm_num) (by norm_num) hwin
            norm_num at this
          · exact hsuit hA.1
          · have := pap_inj _ _ _ (by norm_num) (by norm_num) (by norm_num) (by norm_num) hwin
            norm_num at this
    · by_cases hB : CardSuit c2 = CardSuit c0 ∧ CardRank c2 > CardRank c0
      · have hw : winner ⟨[c0, c1, c2], L, some (CardSuit c0)⟩
            = SchafkopfTrick.player_at_position ⟨[c0, c1, c2], L, some (CardSuit c0)⟩
                (((2 : Nat) : Int)) := by
          rw [winner_three, if_neg hA, if_pos hB]
        refine ⟨2, by omega, hw, hB.1, ?_, ?_⟩
        · intro j hj hji hsuit
          interval_cases j
          · exact hB.2
          · show CardRank c1 < CardRank c2
            have hsuit' : CardSuit c1 = CardSuit c0 := hsuit
            have hle : CardRank c1 ≤ CardRank c0 := by
              by_contra hgt
              exact hA ⟨hsuit', by omega⟩
            have h2 := hB.2
            omega
          · exact absurd rfl hji
        · intro j hj hsuit hwin
          rw [hw] at hwin
          interval_cases j
          · have := pap_inj _ _ _ (by norm_num) (by norm_num) (by norm_num) (by norm_num) hwin
            norm_num at this
          · have := pap_inj _ _ _ (by norm_num) (by norm_num) (by norm_num) (by norm_num) hwin
            norm_num at this
          · exact hsuit hB.1
      · have hw : winner ⟨[c0, c1, c2], L, some (CardSuit c0)⟩
            = SchafkopfTrick.player_at_position ⟨[c0, c1, c2], L, some (CardSuit c0)⟩
                (((0 : Nat) : Int)) := by
          rw [winner_three, if_neg hA, if_neg hB]
        refine ⟨0, by omega, hw, rfl, ?_, ?_⟩
        · intro j hj hji hsuit
          interval_cases j
          · exact absurd rfl hji
          · show CardRank c1 < CardRank c0
            have hsuit' : CardSuit c1 = CardSuit c0 := hsuit
            have hle : CardRank c1 ≤ CardRank c0 := by
              by_contra hgt
              exact hA ⟨hsuit', by omega⟩
            have hne : CardRank c1 ≠ CardRank c0 :=
              fun heq => h01 (card_eq_of_suit_rank hsuit' heq).symm
            omega
          · show CardRank c2 < CardRank c0
            have hsuit' : CardSuit c2 = CardSuit c0 := hsuit
            have hle : CardRank c2 ≤ CardRank c0 := by
              by_contra hgt
              exact hB ⟨hsuit', by omega⟩
            have hne : CardRank c2 ≠ CardRank c0 :=
              fun heq => h02 (card_eq_of_suit_rank hsuit' heq).symm
            omega
        · intro j hj hsuit hwin
          rw [hw] at hwin
          interval_cases j
          · exact hsuit rfl
          · have := pap_inj _ _ _ (by norm_num) (by norm_num) (by norm_num) (by norm_num) hwin
            norm_num at this
          · have := pap_inj _ _ _ (by norm_num) (by norm_num) (by norm_num) (by norm_num) hwin
            norm_num at this
  · intro s a h hphase hgo hmod ha
    obtain ⟨hlen, hptslen, hretlen, hmax, hnum6, hHand3, htricksOk, hshape, hnodup,
      hTrickIff, hTrickCount, hPtsSum, hpi⟩ := inv_reachable h
    rw [phaseInv, hphase] at hpi
    obtain ⟨-, -, -, hgoiff, -, -, -⟩ := hpi
    have hnum_ne6 : s._num_cards_played ≠ 6 := by
      intro hcon
      have := hgoiff.2 hcon
      rw [hgo] at this
      exact absurd this (by decide)
    have hcase : s._num_cards_played = 2 ∨ s._num_cards_played = 5 := by
      simp only [_NUM_PLAYERS] at hmod
      omega
    rcases hcase with hn | hn
    · have hshape2 : s._tricks.map (fun t => t._cards.length) = [2] := by
        rw [hn] at hshape
        exact hshape
      obtain ⟨t1, htricks, ht1len⟩ := map_len_one hshape2
      have hplay : t1.play_card a = { t1 with _cards := t1._cards ++ [a] } :=
        play_card_nonempty t1 a (by omega)
      have happ : _apply_action s a = { s with
          _tricks := [{ t1 with _cards := t1._cards ++ [a] }]
          _card_locations := s._card_locations.set a CardLocation.Trick
          _num_cards_played := s._num_cards_played + 1
          _points := s._points.set (winner { t1 with _cards := t1._cards ++ [a] }).toNat
            (s._points.getD (winner { t1 with _cards := t1._cards ++ [a] }).toNat 0
              + (SchafkopfTrick.points { t1 with _cards := t1._cards ++ [a] } : ℤ))
          _next_player := winner { t1 with _cards := t1._cards ++ [a] } } := by
        unfold _apply_action
        rw [if_neg (by rw [hphase]; decide), if_neg (by rw [hn]; decide)]
        dsimp only
        rw [htricks]
        simp only [modifyLast, hplay]
        rw [hn]
        rw [if_pos (by decide)]
        simp only [getLastD_singleton]
        rw [if_neg (by decide)]
      rw [happ]
      dsimp only
      rw [getLastD_singleton]
      have hwb := winner_bounds { t1 with _cards := t1._cards ++ [a] }
      exact getD_set_self s._points _ 0 (by rw [hptslen]; omega)
    · have hshape5 : s._tricks.map (fun t => t._cards.length) = [3, 2] := by
        rw [hn] at hshape
        exact hshape
      obtain ⟨t1, t2, htricks, ht1len, ht2len⟩ := map_len_two hshape5
      have hplay : t2.play_card a = { t2 with _cards := t2._cards ++ [a] } :=
        play_card_nonempty t2 a (by omega)
      have happ : _apply_action s a = { s with
          _tricks := [t1, { t2 with _cards := t2._cards ++ [a] }]
          _card_locations := s._card_locations.set a CardLocation.Trick
          _num_cards_played := s._num_cards_played + 1
          _points := s._points.set (winner { t2 with _cards := t2._cards ++ [a] }).toNat
            (s._points.getD (winner { t2 with _cards := t2._cards ++ [a] }).toNat 0
              + (SchafkopfTrick.points { t2 with _cards := t2._cards ++ [a] } : ℤ))
          _game_over := true
          _returns := returnsCalc { s with
            _tricks := [t1, { t2 with _cards := t2._cards ++ [a] }]
            _card_locations := s._card_locations.set a CardLocation.Trick
            _num_cards_played := s._num_cards_played + 1
            _points := s._points.set (winner { t2 with _cards := t2._cards ++ [a] }).toNat
              (s._points.getD (winner { t2 with _cards := t2._cards ++ [a] }).toNat 0
                + (SchafkopfTrick.points { t2 with _cards := t2._cards ++ [a] } : ℤ)) } } := by
        unfold _apply_action
        rw [if_neg (by rw [hphase]; decide), if_neg (by rw [hn]; decide)]
        dsimp only
        rw [htricks]
        simp only [modifyLast, hplay]
        rw [hn]
        rw [if_pos (by decide)]
        simp only [getLastD_pair]
        rw [if_pos (by decide)]
      rw [happ]
      dsimp only
      rw [getLastD_pair]
      have hwb := winner_bounds { t2 with _cards := t2._cards ++ [a] }
      exact getD_set_self s._points _ 0 (by rw [hptslen]; omega)

end Schafkopf

namespace Schafkopf

/-- C3 witness: instantiated on the concrete closed trick `[0, 2, 1]` led
by seat 0 (card 2 has the highest rank and wins) and on the concrete play
that closes the first trick of a real game. -/
theorem C3_winner_witness :
    (∃ i, i < 3 ∧
      winner ⟨[0, 2, 1], 0, some (CardSuit 0)⟩
        = SchafkopfTrick.player_at_position ⟨[0, 2, 1], 0, some (CardSuit 0)⟩ ((i : Nat) : Int) ∧
      CardSuit ([0, 2, 1].getD i 0) = CardSuit 0 ∧
      (∀ j, j < 3 → j ≠ i → CardSuit ([0, 2, 1].getD j 0) = CardSuit 0 →
        CardRank ([0, 2, 1].getD j 0) < CardRank ([0, 2, 1].getD i 0)) ∧
      (∀ j, j < 3 → CardSuit ([0, 2, 1].getD j 0) ≠ CardSuit 0 →
        winner ⟨[0, 2, 1], 0, some (CardSuit 0)⟩
          ≠ SchafkopfTrick.player_at_position ⟨[0, 2, 1], 0, some (CardSuit 0)⟩ ((j : Nat) : Int))) ∧
    ((_apply_action (applyActions initialState [0, 1, 2, 3, 4, 5, 0, 2]) 1)._points.getD
        (winner ((_apply_action (applyActions initialState [0, 1, 2, 3, 4, 5, 0, 2]) 1)._tricks.getLastD
          default)).toNat 0
      = (applyActions initialState [0, 1, 2, 3, 4, 5, 0, 2])._points.getD
          (winner ((_apply_action (applyActions initialState [0, 1, 2, 3, 4, 5, 0, 2]) 1)._tricks.getLastD
            default)).toNat 0
        + (SchafkopfTrick.points
            ((_apply_action (applyActions initialState [0, 1, 2, 3, 4, 5, 0, 2]) 1)._tricks.getLastD
              default) : ℤ)) :=
  ⟨(C3_winner 0 2 1 0).1 (by decide) (by decide) (by decide),
   (C3_winner 0 0 0 0).2 (applyActions initialState [0, 1, 2, 3, 4, 5, 0, 2]) 1
     (reachable_applyActions initialState [0, 1, 2, 3, 4, 5, 0, 2] Reachable.init (by decide))
     (by decide) (by decide) (by decide) (by decide)⟩

end Schafkopf
